import Mathlib

/-!
# SubtitleRenderer: tag tracking, character decoding, glyph cache and layout

A shallow embedding of `SubtitleRenderer.h` / `SubtitleRenderer.cpp`.

* `char32_t` values, bytes and the `char state_` of `TagTracker` are natural numbers
  (`'<'` = 60, `'/'` = 47, `'i'` = 105, `'>'` = 62).
* `int` values are integers; the layout arithmetic is far from the 32-bit range.
  `uint32_t` values are natural numbers, reduced modulo `2^32` where the code converts.
* `float` values are the rationals they denote, and every `float` operation rounds its
  exact result to binary32 (`f32`).
* Code that throws returns `Except String`; the state of the renderer is passed explicitly.
* `decodeUtf8`, `ENFORCE`, `clamp` and the FreeType library are not among the sources and
  are parameters (`Backend`) or are modelled where they are used.
-/

namespace SubtitleRenderer

/-! ## TagTracker (SubtitleRenderer.h, lines 39-82) -/

/-- The private fields of `class TagTracker`. -/
structure TagTracker where
  italic_ : Bool
  state_ : Nat
  closing_ : Bool
deriving DecidableEq, Repr

namespace TagTracker

/-- The constructor `TagTracker() : italic_(), state_(), closing_()`. -/
def fresh : TagTracker := { italic_ := false, state_ := 0, closing_ := false }

/-- The member `void put(char32_t cp)`. -/
def put (t : TagTracker) (cp : Nat) : TagTracker :=
  let t := if t.state_ = 62 then { t with state_ := 0 } else t
  if cp = 60 then
    { t with state_ := 60, closing_ := false }
  else if cp = 47 then
    if t.state_ = 60 then { t with closing_ := true } else t
  else if cp = 105 then
    if t.state_ ≠ 0 then { t with state_ := 105 } else t
  else if cp = 62 then
    if t.state_ ≠ 0 then
      let t := if t.state_ = 105 then { t with italic_ := !t.closing_ } else t
      { t with state_ := 62 }
    else t
  else t

/-- The member `bool italic()`. -/
def italic (t : TagTracker) : Bool := t.italic_

/-- The member `bool in_tag()`: the conversion of `state_` to `bool`. -/
def in_tag (t : TagTracker) : Bool := t.state_ != 0

/-- Feeding a sequence of codepoints, one `put` each, in order. -/
def putAll (t : TagTracker) (cps : List Nat) : TagTracker := cps.foldl put t

end TagTracker

/-! ## InternalChar (SubtitleRenderer.h, lines 153-167) -/

/-- The struct `InternalChar`: one 32-bit `val`. -/
structure InternalChar where
  val : Nat
deriving DecidableEq, Repr

namespace InternalChar

/-- The constructor `InternalChar(char32_t codepoint, bool italic)`:
`val = codepoint | (static_cast<char32_t>(italic) << 31)`. -/
def make (codepoint : Nat) (italic : Bool) : InternalChar :=
  { val := codepoint ||| ((if italic then 1 else 0) <<< 31) }

/-- The member `codepoint()`: `val & 0x7FFFFFFF`. -/
def codepoint (c : InternalChar) : Nat := c.val &&& 0x7FFFFFFF

/-- The member `italic()`: `val >> 31` converted to `bool`. -/
def italic (c : InternalChar) : Bool := (c.val >>> 31) != 0

end InternalChar

/-! ## get_internal_chars (SubtitleRenderer.cpp, lines 212-227) -/

/-- The loop of `get_internal_chars` over the codepoints that `decodeUtf8` returns, in
order: `tag_tracker.put(cp)`, then the character is pushed with the tracker's italic flag
when `in_tag()` is false.  The result is the character vector and the tracker as the
loop leaves it (the tracker is passed by reference). -/
def get_internal_chars_cps : List Nat → TagTracker → List InternalChar × TagTracker
  | [], t => ([], t)
  | cp :: rest, t =>
    let t1 := t.put cp
    let r := get_internal_chars_cps rest t1
    (if t1.in_tag then r.1 else InternalChar.make cp t1.italic :: r.1, r.2)

/-- The `try` block of the loop body of `get_internal_chars`, after `decodeUtf8` has
returned `cp`: `tag_tracker.put(cp)`, then the push when `in_tag()` is false. -/
def push_decoded (cp : Nat) (t : TagTracker) (internal_chars : List InternalChar) :
    TagTracker × List InternalChar :=
  let t1 := t.put cp
  (t1, if t1.in_tag then internal_chars else internal_chars ++ [InternalChar.make cp t1.italic])

/-- Modelled from the spec: the function `decodeUtf8(c_str, len, i)` of `Unicode.h` is not
among the sources.  It is a parameter: `decode str i` is `some (cp, j)` when the call
returns the codepoint `cp` and has moved the index from `i` to `j`, and `none` when it
throws.  A call that returns has consumed at least one byte, and a call that throws has
left the index where it was: the decoder skips exactly one byte on an invalid sequence. -/
structure Utf8Decoder where
  decode : List Nat → Nat → Option (Nat × Nat)
  advances : ∀ str i cp j, decode str i = some (cp, j) → i < j

/-- The loop `for (size_t i = 0, len = str.length(); i < len;)` of `get_internal_chars`,
from index `i` on, with `fuel` bounding the number of iterations: a decoded codepoint
goes through `push_decoded`, a throw of `decodeUtf8` is caught and skips one byte
(`++i; // Keep going`). -/
def get_internal_chars_loop (dec : Utf8Decoder) (str : List Nat) :
    Nat → Nat → TagTracker → List InternalChar → List InternalChar × TagTracker
  | 0, _, t, internal_chars => (internal_chars, t)
  | fuel + 1, i, t, internal_chars =>
    if i < str.length then
      match dec.decode str i with
      | some (cp, j) =>
        let r := push_decoded cp t internal_chars
        get_internal_chars_loop dec str fuel j r.1 r.2
      | none => get_internal_chars_loop dec str fuel (i + 1) t internal_chars
    else (internal_chars, t)

/-- The function `get_internal_chars(str, tag_tracker)` on the bytes of `str`: the
returned vector and the tracker as the call leaves it.  Every iteration moves `i` forward,
so `str.length` iterations are enough. -/
def get_internal_chars (dec : Utf8Decoder) (str : List Nat) (t : TagTracker) :
    List InternalChar × TagTracker :=
  get_internal_chars_loop dec str str.length 0 t []

/-- The codepoints the loop of `get_internal_chars` obtains from `decodeUtf8`, in order,
from index `i` on. -/
def decoded_codepoints_loop (dec : Utf8Decoder) (str : List Nat) : Nat → Nat → List Nat
  | 0, _ => []
  | fuel + 1, i =>
    if i < str.length then
      match dec.decode str i with
      | some (cp, j) => cp :: decoded_codepoints_loop dec str fuel j
      | none => decoded_codepoints_loop dec str fuel (i + 1)
    else []

/-- The codepoints `get_internal_chars` feeds to the tracker for the bytes `str`. -/
def decoded_codepoints (dec : Utf8Decoder) (str : List Nat) : List Nat :=
  decoded_codepoints_loop dec str str.length 0

/-- A decoder for examples: the one-byte sequences of UTF-8 (bytes below `0x80`); every
other byte makes it throw. -/
def asciiDecoder : Utf8Decoder where
  decode := fun str i =>
    match str[i]? with
    | some b => if b < 128 then some (b, i + 1) else none
    | none => none
  advances := by
    intro str i cp j h
    cases hb : str[i]? with
    | none => simp [hb] at h
    | some b =>
      simp only [hb] at h
      split at h
      · simp only [Option.some.injEq, Prod.mk.injEq] at h
        omega
      · simp at h

/-! ## Single-precision arithmetic

`float` and `VGfloat` are IEEE 754 binary32 and every operation rounds to nearest, ties
to even.  A finite `float` is the rational number it denotes; overflow to infinity and
NaN are outside the model (the quantities below are pixel counts and their ratios). -/

/-- Rounding of a rational to the nearest integer, ties to the even one. -/
def roundHalfEven (q : ℚ) : ℤ :=
  let f := ⌊q⌋
  if q - f < 1 / 2 then f
  else if 1 / 2 < q - f then f + 1
  else if f % 2 = 0 then f else f + 1

/-- The exponent `e` of the binade of `q`, `2^e ≤ |q| < 2^(e+1)`, and `-126` for the
subnormal range. -/
def f32Exponent (q : ℚ) : ℤ := max (Int.log 2 |q|) (-126)

/-- Rounding of a rational to binary32: the nearest multiple of `2^(e-23)`. -/
def f32 (q : ℚ) : ℚ :=
  if q = 0 then 0
  else (roundHalfEven (q / (2 : ℚ) ^ (f32Exponent q - 23)) : ℚ) * (2 : ℚ) ^ (f32Exponent q - 23)

/-- Conversion of a `float` to `int`: truncation toward zero. -/
def float_to_int (q : ℚ) : ℤ := if 0 ≤ q then ⌊q⌋ else ⌈q⌉

/-- Conversion of an `int` to `uint32_t`. -/
def to_uint32 (z : ℤ) : ℕ := (z % 2 ^ 32).toNat

/-- Conversion of a `uint32_t` to `int`. -/
def to_int32 (n : ℕ) : ℤ := if n < 2 ^ 31 then (n : ℤ) else (n : ℤ) - 2 ^ 32

/-! ## The glyph cache (SubtitleRenderer.h, lines 169-177 and 219-220) -/

/-- The struct `InternalGlyph`. -/
structure InternalGlyph where
  advance : Int
deriving DecidableEq, Repr

/-- The type `std::unordered_map<InternalChar, InternalGlyph, InternalCharHash>`; keys are
compared by `InternalChar::operator==`, that is by `val`. -/
abbrev GlyphMap := List (InternalChar × InternalGlyph)

namespace GlyphMap

/-- The lookup behind `find(c)` and `at(c)`: `none` when `c` has no entry. -/
def find : GlyphMap → InternalChar → Option InternalGlyph
  | [], _ => none
  | (k, g) :: rest, c => if k = c then some g else find rest c

/-- The assignment `m[c].advance = a`: `operator[]` inserts an entry when `c` has none. -/
def assign : GlyphMap → InternalChar → Int → GlyphMap
  | [], c, a => [(c, { advance := a })]
  | (k, g) :: rest, c, a =>
    if k = c then (k, { advance := a }) :: rest else (k, g) :: assign rest c a

end GlyphMap

/-! ## The renderer state (SubtitleRenderer.h, lines 84-98 and 203-236) -/

/-- The struct `SubtitleConfig`. -/
structure SubtitleConfig where
  buffer_width : Int
  buffer_height : Int
  buffer_y : Int
  buffer_x : Int
  line_height : Int
  box_offset : Int
  box_h_padding : Int
  margin_left : Int
  margin_bottom : Int
  title_line_height : Int
  title_line_padding : Int
  title_box_offset : Int
  title_box_h_padding : Int
deriving DecidableEq, Repr

/-- Modelled from the spec: the declaration of the element type of `prepared_lines_` is
not among the sources; it is one slot of the prepared content, with the fields `prepare`
and `draw` use (the lines, their widths, their positions and the `prepared_` flag). -/
structure PreparedSubtitleLines where
  internal_lines_ : List (List InternalChar)
  line_positions_ : List (Int × Int)
  line_widths_ : List Int
  prepared_ : Bool
deriving DecidableEq, Repr

/-- The three FreeType faces `ft_face_`, `ft_face_italic_` and `ft_face_title_`. -/
inductive FontFace where
  | regular
  | italic
  | title
deriving DecidableEq, Repr

/-- The data members of `SubtitleRenderer` that the text and layout code reads or writes;
`prepared_lines_` (two slots), `prepared_lines_active_` and the `time` members are as
`SubtitleRenderer.cpp` uses them.  The display, EGL, OpenVG and FreeType handles are left
out; `ft_calls` records, in order, the glyphs requested from FreeType (face, codepoint,
stroked border or not). -/
structure Renderer where
  title_prepared_ : Bool
  time_prepared_ : Bool
  glyphs_ : GlyphMap
  glyphs_title_ : GlyphMap
  prepared_lines_0 : PreparedSubtitleLines
  prepared_lines_1 : PreparedSubtitleLines
  prepared_lines_active_ : Bool
  internal_title_line_ : List InternalChar
  title_line_position_ : Int × Int
  title_line_width_ : Int
  internal_time_ : List InternalChar
  time_position_ : Int × Int
  time_width_ : Int
  centered_ : Bool
  title_centered_ : Bool
  screen_width_ : Nat
  screen_height_ : Nat
  config_fullscreen_ : SubtitleConfig
  config_ : SubtitleConfig
  ft_calls : List (FontFace × Nat × Bool)
deriving DecidableEq, Repr

namespace Renderer

/-- The slot `prepared_lines_[prepared_lines_active_]`, which `draw` reads. -/
def active_lines (s : Renderer) : PreparedSubtitleLines :=
  if s.prepared_lines_active_ then s.prepared_lines_1 else s.prepared_lines_0

/-- The slot `prepared_lines_[!prepared_lines_active_]`, which `prepare` writes. -/
def staging_lines (s : Renderer) : PreparedSubtitleLines :=
  if s.prepared_lines_active_ then s.prepared_lines_0 else s.prepared_lines_1

/-- Assignment to the slot `prepared_lines_[!prepared_lines_active_]`. -/
def set_staging_lines (s : Renderer) (l : PreparedSubtitleLines) : Renderer :=
  if s.prepared_lines_active_ then { s with prepared_lines_0 := l }
  else { s with prepared_lines_1 := l }

end Renderer

/-! ## The collaborators outside the sources -/

/-- What FreeType answers to the calls `load_glyph` makes for one glyph: the `FT_Error`
of `FT_Load_Glyph`, `FT_Get_Glyph`, `FT_Glyph_StrokeBorder` and `FT_Glyph_To_Bitmap`
(0 is success) and `ft_face->glyph->advance.x`, in 26.6 fixed point. -/
structure FTGlyph where
  load_glyph_error : Nat
  get_glyph_error : Nat
  stroke_border_error : Nat
  to_bitmap_error : Nat
  advance_x : Int
deriving DecidableEq, Repr

/-- The code the renderer calls and the sources do not contain: `decodeUtf8` and the
FreeType library, the latter as the answer for each face, codepoint and variant
(`true` is the stroked border). -/
structure Backend where
  decodeUtf8 : Utf8Decoder
  freetype : FontFace → Nat → Bool → FTGlyph

/-- Modelled from the spec: the macro `ENFORCE` of `utils/Enforce.h` is not among the
sources; a backend failure is an error raised at the failing call, so `ENFORCE` throws
when its condition is false. -/
def ENFORCE (condition : Bool) : Except String Unit :=
  if condition then pure () else throw "ENFORCE"

/-! ## load_glyph (SubtitleRenderer.cpp, lines 91-199) -/

/-- The `try` block of the lambda `load_glyph_internal`: the value `escapement[0]`
receives when no `ENFORCE` throws.  The OpenVG calls in between are asserted, not
enforced, and do not throw. -/
def load_glyph_try (g : FTGlyph) (border : Bool) : Except String ℚ := do
  ENFORCE (g.load_glyph_error == 0)
  ENFORCE (g.get_glyph_error == 0)
  if border then
    ENFORCE (g.stroke_border_error == 0)
  ENFORCE (g.to_bitmap_error == 0)
  pure (f32 (((g.advance_x + 32).tdiv 64 : ℤ) : ℚ))

/-- The lambda `load_glyph_internal`: `try { ... } catch (...) { escapement[0] = 0; ... }`.
The result is `escapement[0]` after the call. -/
def load_glyph_internal (g : FTGlyph) (border : Bool) : Except String ℚ :=
  tryCatch (load_glyph_try g border) (fun _ => pure 0)

/-- The function `load_glyph(ch, title)`. -/
def load_glyph (b : Backend) (s : Renderer) (ch : InternalChar) (title : Bool) :
    Except String Renderer := do
  if title then
    let e ← load_glyph_internal (b.freetype .title ch.codepoint false) false
    let s := { s with ft_calls := s.ft_calls ++ [(FontFace.title, ch.codepoint, false)],
                      glyphs_title_ := s.glyphs_title_.assign ch (float_to_int e) }
    let _ ← load_glyph_internal (b.freetype .title ch.codepoint true) true
    pure { s with ft_calls := s.ft_calls ++ [(FontFace.title, ch.codepoint, true)] }
  else if !ch.italic then
    let e ← load_glyph_internal (b.freetype .regular ch.codepoint false) false
    let s := { s with ft_calls := s.ft_calls ++ [(FontFace.regular, ch.codepoint, false)],
                      glyphs_ := s.glyphs_.assign ch (float_to_int e) }
    let _ ← load_glyph_internal (b.freetype .regular ch.codepoint true) true
    pure { s with ft_calls := s.ft_calls ++ [(FontFace.regular, ch.codepoint, true)] }
  else
    let e ← load_glyph_internal (b.freetype .italic ch.codepoint false) false
    let s := { s with ft_calls := s.ft_calls ++ [(FontFace.italic, ch.codepoint, false)],
                      glyphs_ := s.glyphs_.assign ch (float_to_int e) }
    let _ ← load_glyph_internal (b.freetype .italic ch.codepoint true) true
    pure { s with ft_calls := s.ft_calls ++ [(FontFace.italic, ch.codepoint, true)] }

/-! ## get_text_width and prepare_glyphs (SubtitleRenderer.cpp, lines 201-240) -/

/-- The loop of `get_text_width(text, title)` with `width` as accumulated so far;
`at` throws `std::out_of_range` for a character without an entry. -/
def get_text_width_loop (s : Renderer) (title : Bool) :
    List InternalChar → Int → Except String Int
  | [], width => pure width
  | c :: rest, width =>
    match (if title then s.glyphs_title_ else s.glyphs_).find c with
    | some g => get_text_width_loop s title rest (width + g.advance)
    | none => throw "std::out_of_range"

/-- The function `get_text_width(text, title)`. -/
def get_text_width (s : Renderer) (text : List InternalChar) (title : Bool) :
    Except String Int :=
  get_text_width_loop s title text 0

/-- The function `prepare_glyphs(text, title)`. -/
def prepare_glyphs (b : Backend) : Renderer → List InternalChar → Bool → Except String Renderer
  | s, [], _ => pure s
  | s, c :: rest, title => do
    let s1 ←
      if title then
        if (s.glyphs_title_.find c).isNone then load_glyph b s c title else pure s
      else
        if (s.glyphs_.find c).isNone then load_glyph b s c title else pure s
    prepare_glyphs b s1 rest title

/-! ## prepare, prepare_time and prepare_title (SubtitleRenderer.cpp, lines 565-636)

These functions are `noexcept`: an exception that leaves them ends the program, which is
the `Except.error` result here. -/

/-- The member `std::vector::resize(n)`, new elements being `d`. -/
def resize {α : Type} (l : List α) (n : Nat) (d : α) : List α :=
  l.take n ++ List.replicate (n - l.length) d

/-- The centred position `config_.buffer_width/2 - width/2` of `prepare` and
`prepare_title`; both divisions are `int` divisions. -/
def centered_x (buffer_width width : Int) : Int :=
  buffer_width.tdiv 2 - width.tdiv 2

/-- The loop `for (int i = 0; i < n_lines; ++i)` of `prepare`, from index `i` on:
`texts` are the strings `text_lines[i]`, `text_lines[i+1]`, ...  The vector
`lines.internal_lines_[i]`, read three times after its assignment, is `chars`. -/
def prepare_loop (b : Backend) (n_lines title_line_height title_line_padding : Int) :
    List (List Nat) → Nat → Renderer → TagTracker → Except String Renderer
  | [], _, s, _ => pure s
  | text :: texts, i, s, tag_tracker => do
    let r := get_internal_chars b.decodeUtf8 text tag_tracker
    let chars := r.1
    let s := s.set_staging_lines
      { s.staging_lines with internal_lines_ := s.staging_lines.internal_lines_.set i chars }
    let s ← prepare_glyphs b s chars false
    let width ← get_text_width s chars false
    let s := s.set_staging_lines
      { s.staging_lines with line_widths_ := s.staging_lines.line_widths_.set i width }
    let y := s.config_.margin_bottom + title_line_height + title_line_padding +
      (n_lines - i - 1) * s.config_.line_height
    let x := if s.centered_ then centered_x s.config_.buffer_width width
             else s.config_.margin_left
    let s := s.set_staging_lines
      { s.staging_lines with line_positions_ := s.staging_lines.line_positions_.set i (x, y) }
    prepare_loop b n_lines title_line_height title_line_padding texts (i + 1) s r.2

/-- The function `prepare(text_lines)`. -/
def prepare (b : Backend) (s : Renderer) (text_lines : List (List Nat)) :
    Except String Renderer := do
  let n_lines : Int := text_lines.length
  let lines := s.staging_lines
  let s := s.set_staging_lines
    { lines with
      internal_lines_ := resize lines.internal_lines_ text_lines.length []
      line_widths_ := resize lines.line_widths_ text_lines.length 0
      line_positions_ := resize lines.line_positions_ text_lines.length (0, 0) }
  let title_line_height := if !s.title_prepared_ then 0 else s.config_.title_line_height
  let title_line_padding := if !s.title_prepared_ then 0 else s.config_.title_line_padding
  let s ← prepare_loop b n_lines title_line_height title_line_padding text_lines 0 s
    TagTracker.fresh
  pure (s.set_staging_lines { s.staging_lines with prepared_ := true })

/-- The function `prepare_time(line)`. -/
def prepare_time (b : Backend) (s : Renderer) (line : List Nat) : Except String Renderer := do
  if line = [] then
    pure { s with time_prepared_ := false }
  else
    let s := { s with internal_time_ := (get_internal_chars b.decodeUtf8 line TagTracker.fresh).1 }
    let s ← prepare_glyphs b s s.internal_time_ true
    let width ← get_text_width s s.internal_time_ true
    pure { s with
      time_width_ := width
      time_position_ := (s.config_.buffer_width - width - s.config_.margin_left,
        s.config_.margin_bottom)
      time_prepared_ := true }

/-- The function `prepare_title(line)`. -/
def prepare_title (b : Backend) (s : Renderer) (line : List Nat) : Except String Renderer := do
  if line = [] then
    pure { s with title_prepared_ := false }
  else
    let s := { s with
      internal_title_line_ := (get_internal_chars b.decodeUtf8 line TagTracker.fresh).1 }
    let s ← prepare_glyphs b s s.internal_title_line_ true
    let width ← get_text_width s s.internal_title_line_ true
    pure { s with
      title_line_width_ := width
      title_line_position_ :=
        (if s.title_centered_ then centered_x s.config_.buffer_width width
         else s.config_.margin_left,
         s.config_.margin_bottom)
      title_prepared_ := true }

/-! ## set_rect (SubtitleRenderer.cpp, lines 739-781) -/

/-- The expression `config_fullscreen_.field * mod + 0.5f` assigned to an `int` field:
the field is converted to `float`, the product and the sum are rounded to `float`, and
the result is truncated. -/
def scale_field (field : Int) (mod : ℚ) : Int :=
  float_to_int (f32 (f32 (f32 (field : ℚ) * mod) + 1 / 2))

/-- The function `set_rect(x1, y1, x2, y2)`.  The calls that resize the dispmanx element
and set the FreeType pixel sizes act on handles outside the state. -/
def set_rect (s : Renderer) (x1 y1 x2 y2 : Int) : Renderer :=
  let width : ℕ := to_uint32 (x2 - x1)
  let height : ℕ := to_uint32 (y2 - y1)
  let height_mod : ℚ := f32 (f32 (height : ℚ) / f32 (s.screen_height_ : ℚ))
  let width_mod : ℚ := f32 (f32 (width : ℚ) / f32 (s.screen_width_ : ℚ))
  let full := s.config_fullscreen_
  { s with
    config_ :=
      { buffer_x := x1
        buffer_y := float_to_int (f32 (f32 (f32 (y2 : ℚ) -
          f32 (f32 ((to_uint32 ((s.screen_height_ : ℤ) - full.buffer_y) : ℕ) : ℚ) * height_mod))
          + 1 / 2))
        buffer_width := to_int32 width
        buffer_height := scale_field full.buffer_height height_mod
        line_height := scale_field full.line_height height_mod
        box_offset := scale_field full.box_offset height_mod
        box_h_padding := scale_field full.box_h_padding height_mod
        margin_left := scale_field full.margin_left width_mod
        margin_bottom := scale_field full.margin_bottom height_mod
        title_line_height := scale_field full.title_line_height height_mod
        title_line_padding := scale_field full.title_line_padding height_mod
        title_box_offset := scale_field full.title_box_offset height_mod
        title_box_h_padding := scale_field full.title_box_h_padding height_mod }
    glyphs_ := []
    glyphs_title_ := [] }

/-! ## The constructor (SubtitleRenderer.cpp, lines 278-349, 357-413) -/

/-- Modelled from the spec: the function `clamp` of `utils/Clamp.h` is not among the
sources; it is the value `val` brought into the range from `lower` to `upper`. -/
def clamp (val lower upper : Int) : Int := max lower (min val upper)

/-- The bounding-box values `initialize_fonts` reads through `get_bbox`: `yMin` of `g`
and `yMax` of `M`, in pixels, for `ft_face_` and for `ft_face_title_`. -/
structure FontMetrics where
  g_yMin : Int
  M_yMax : Int
  title_g_yMin : Int
  title_M_yMax : Int
deriving DecidableEq, Repr

/-- The statement `y_max += -y_min*0.7f` of `initialize_fonts`: the new `y_max`. -/
def raised_y_max (y_min y_max : Int) : Int :=
  float_to_int (f32 (f32 (y_max : ℚ) + f32 (f32 ((-y_min : ℤ) : ℚ) * f32 (7 / 10))))

/-- The initialiser `line_height*padding_factor + 0.5f` of `v_padding`, with
`padding_factor = 0.05f`. -/
def v_padding (line_height : Int) : Int :=
  float_to_int (f32 (f32 (f32 (line_height : ℚ) * f32 (5 / 100)) + 1 / 2))

/-- The expression `line_height/5.0f + 0.5f` of the two `box_h_padding` fields. -/
def h_padding (line_height : Int) : Int :=
  float_to_int (f32 (f32 (f32 (line_height : ℚ) / 5) + 1 / 2))

/-- The fields of `config_` that `initialize_fonts` sets (lines 386-404); the other fields
are zero here and are set by the constructor. -/
def initialize_fonts (m : FontMetrics) : SubtitleConfig :=
  let line_height0 := raised_y_max m.g_yMin m.M_yMax - m.g_yMin
  let line_height := line_height0 + v_padding line_height0 * 2
  let title_line_height0 := raised_y_max m.title_g_yMin m.title_M_yMax - m.title_g_yMin
  let title_line_height := title_line_height0 + v_padding title_line_height0 * 2
  { buffer_width := 0
    buffer_height := 0
    buffer_y := 0
    buffer_x := 0
    line_height := line_height
    box_offset := m.g_yMin - v_padding line_height0
    box_h_padding := h_padding line_height
    margin_left := 0
    margin_bottom := 0
    title_line_height := title_line_height
    title_line_padding :=
      float_to_int (f32 (f32 (f32 (line_height : ℚ) * (1 / 2)) + 1 / 2))
    title_box_offset := m.title_g_yMin - v_padding title_line_height0
    title_box_h_padding := h_padding title_line_height }

/-- The configuration the constructor computes (lines 323-339) from the display size, the
font metrics, the two margins (`float` parameters) and the number of lines. -/
def constructor_config (screen_width screen_height : ℕ) (m : FontMetrics)
    (margin_left margin_bottom : ℚ) (lines : ℕ) : SubtitleConfig :=
  let c := initialize_fonts m
  let abs_margin_bottom :=
    float_to_int (f32 (f32 (margin_bottom * f32 (screen_height : ℚ)) + 1 / 2)) - c.box_offset
  let buffer_padding := (c.line_height + 2).tdiv 4
  let buffer_bottom :=
    clamp (abs_margin_bottom + c.box_offset - buffer_padding) 0 (to_int32 screen_height - 1)
  let buffer_top :=
    clamp (buffer_bottom + c.title_line_height + c.title_line_padding +
      c.line_height * to_int32 lines + buffer_padding * 2) 0 (to_int32 screen_height - 1)
  { c with
    buffer_x := 0
    buffer_y := to_int32 (to_uint32 ((screen_height : ℤ) - buffer_top - 1))
    buffer_width := to_int32 screen_width
    buffer_height := buffer_top - buffer_bottom + 1
    margin_left := float_to_int (f32 (f32 (margin_left * f32 (screen_width : ℚ)) + 1 / 2))
    margin_bottom := abs_margin_bottom - buffer_bottom }

/-- The renderer a successful constructor call leaves: the members of the initialiser
list are value-initialised or copied from the arguments, `config_` is computed and
`config_fullscreen_ = config_` saves it. -/
def construct (screen_width screen_height : ℕ) (m : FontMetrics)
    (margin_left margin_bottom : ℚ) (centered title_centered : Bool) (lines : ℕ) :
    Renderer :=
  let config := constructor_config screen_width screen_height m margin_left margin_bottom lines
  { title_prepared_ := false
    time_prepared_ := false
    glyphs_ := []
    glyphs_title_ := []
    prepared_lines_0 := { internal_lines_ := [], line_positions_ := [], line_widths_ := [],
                          prepared_ := false }
    prepared_lines_1 := { internal_lines_ := [], line_positions_ := [], line_widths_ := [],
                          prepared_ := false }
    prepared_lines_active_ := false
    internal_title_line_ := []
    title_line_position_ := (0, 0)
    title_line_width_ := 0
    internal_time_ := []
    time_position_ := (0, 0)
    time_width_ := 0
    centered_ := centered
    title_centered_ := title_centered
    screen_width_ := screen_width
    screen_height_ := screen_height
    config_fullscreen_ := config
    config_ := config
    ft_calls := [] }

/-! ## Helpers for the statements -/

/-- The face `load_glyph(ch, title)` takes the glyph from. -/
def glyph_face (ch : InternalChar) (title : Bool) : FontFace :=
  if title then .title else if !ch.italic then .regular else .italic

/-- The map `load_glyph`, `prepare_glyphs` and `get_text_width` use for a category:
`glyphs_title_` for the title and the time, `glyphs_` for the body. -/
def Renderer.glyph_map (s : Renderer) (title : Bool) : GlyphMap :=
  if title then s.glyphs_title_ else s.glyphs_

/-- Whether an `ENFORCE` of `load_glyph_internal` throws for the variant `border`. -/
def FTGlyph.fails (g : FTGlyph) (border : Bool) : Bool :=
  g.load_glyph_error != 0 || g.get_glyph_error != 0 ||
    (border && g.stroke_border_error != 0) || g.to_bitmap_error != 0

/-- The pixel advance `(advance.x + 32) / 64` of a glyph that loaded, as it comes back
from the `VGfloat` it is stored in. -/
def FTGlyph.pixel_advance (g : FTGlyph) : Int :=
  float_to_int (f32 (((g.advance_x + 32).tdiv 64 : ℤ) : ℚ))

/-! ## Markup text, as the specification describes it -/

/-- A segment of well-formed markup text: a plain run of codepoints, or one of the two
markup tokens `<i>` and `</i>`. -/
inductive Segment where
  | plain (run : List Nat)
  | open_i
  | close_i
deriving DecidableEq, Repr

namespace Segment

/-- The codepoints a segment is written with. -/
def chars : Segment → List Nat
  | .plain run => run
  | .open_i => [60, 105, 62]
  | .close_i => [60, 47, 105, 62]

/-- The codepoints of a segment that are text rather than markup. -/
def visible : Segment → List Nat
  | .plain run => run
  | _ => []

/-- A plain run contains no `<`, and its elements are codepoints (below `2^31`, so that
bit 31 of `InternalChar::val` is free for the italic flag). -/
def wf : Segment → Prop
  | .plain run => 60 ∉ run ∧ ∀ c ∈ run, c < 2 ^ 31
  | _ => True

end Segment

/-- The italic flag a tag `<body>` leaves behind, read off the body: when the body holds
an `i` the flag is set, to false when a `/` comes before the first `i` and to true
otherwise; a body without `i` keeps the flag `old`. -/
def tagItalic (old : Bool) (body : List Nat) : Bool :=
  if body.contains 105 then !((body.takeWhile (fun c => c != 105)).contains 47) else old

/-- The sum of the advances a glyph map holds for the characters of `text`; a character
without an entry counts 0. -/
def GlyphMap.advance_sum (m : GlyphMap) (text : List InternalChar) : Int :=
  (text.map (fun c => match m.find c with
    | some g => g.advance
    | none => 0)).sum

/-- The advance `load_glyph(ch, title)` records: that of the filled glyph, or 0 when
loading the filled glyph throws. -/
def Backend.recorded_advance (b : Backend) (ch : InternalChar) (title : Bool) : Int :=
  if (b.freetype (glyph_face ch title) ch.codepoint false).fails false then 0
  else (b.freetype (glyph_face ch title) ch.codepoint false).pixel_advance

/-! ## Sample inputs for the examples -/

/-- Metrics of a font with descenders, used for the body and for the title: `g` reaches
5 pixels below the baseline and `M` 20 pixels above it. -/
def sampleMetrics : FontMetrics :=
  { g_yMin := -5, M_yMax := 20, title_g_yMin := -5, title_M_yMax := 20 }

/-- A backend whose FreeType gives every glyph the advance 640/64 = 10 pixels, fails to
stroke the border of `B` (66) and fails to load `C` (67). -/
def sampleBackend : Backend :=
  { decodeUtf8 := asciiDecoder
    freetype := fun _ cp _ =>
      { load_glyph_error := if cp = 67 then 1 else 0
        get_glyph_error := 0
        stroke_border_error := if cp = 66 then 1 else 0
        to_bitmap_error := 0
        advance_x := 640 } }

/-- A renderer as constructed for a 1920x1080 display with `sampleMetrics`, margins of
1/16 of the display, centred body and title, and three lines. -/
def sampleRenderer : Renderer :=
  construct 1920 1080 sampleMetrics (1 / 16) (1 / 16) true true 3

/-- The fields of `SubtitleConfig` that `set_rect` multiplies by `height_mod`. -/
def heightScaledFields : List (SubtitleConfig → Int) :=
  [SubtitleConfig.buffer_height, SubtitleConfig.line_height, SubtitleConfig.box_offset,
    SubtitleConfig.box_h_padding, SubtitleConfig.margin_bottom,
    SubtitleConfig.title_line_height, SubtitleConfig.title_line_padding,
    SubtitleConfig.title_box_offset, SubtitleConfig.title_box_h_padding]

/-- The integer `field` is `baseline * ratio` rounded to the nearest integer, up to the
rounding of the single-precision operations that compute it: the distance is at most a
half plus `(4 * baseline * ratio + 1/2) / 2^24`. -/
def RoundedScale (baseline : Int) (ratio : ℚ) (field : Int) : Prop :=
  |(field : ℚ) - (baseline : ℚ) * ratio| ≤
    1 / 2 + (4 * ((baseline : ℚ) * ratio) + 1 / 2) / 2 ^ 24

/-- The integer `n` is a nearest integer of `x`. -/
def NearestInteger (x : ℚ) (n : Int) : Prop := |(n : ℚ) - x| ≤ 1 / 2

/-- The character vectors of successive calls `get_internal_chars(text, tag_tracker)` on
the strings `texts`, the tracker each call leaves being the one the next call starts
from. -/
def thread_lines (dec : Utf8Decoder) : List (List Nat) → TagTracker → List (List InternalChar)
  | [], _ => []
  | text :: texts, t =>
    (get_internal_chars dec text t).1 :: thread_lines dec texts (get_internal_chars dec text t).2

/-- The loop of `get_internal_chars` from index `i` on, allowed `fuel` iterations:
`some` of the vector and the tracker when the loop condition `i < len` fails within
them, `none` when the iterations run out first. -/
def get_internal_chars_steps (dec : Utf8Decoder) (str : List Nat) :
    Nat → Nat → TagTracker → List InternalChar → Option (List InternalChar × TagTracker)
  | 0, i, t, internal_chars => if i < str.length then none else some (internal_chars, t)
  | fuel + 1, i, t, internal_chars =>
    if i < str.length then
      match dec.decode str i with
      | some (cp, j) =>
        let r := push_decoded cp t internal_chars
        get_internal_chars_steps dec str fuel j r.1 r.2
      | none => get_internal_chars_steps dec str fuel (i + 1) t internal_chars
    else some (internal_chars, t)

/-- The codepoints `decodeUtf8` returns when called again and again from index `i` until
the index is exactly `j`; `none` when a call throws, the index passes `j`, or `fuel`
calls do not reach `j`. -/
def decode_segment (dec : Utf8Decoder) (str : List Nat) : Nat → Nat → Nat → Option (List Nat)
  | 0, i, j => if i = j then some [] else none
  | fuel + 1, i, j =>
    if i = j then some []
    else if j < i then none
    else
      match dec.decode str i with
      | some (cp, k) => (decode_segment dec str fuel k j).map (fun cps => cp :: cps)
      | none => none

/-- The bytes `a` are valid for the decoder wherever they stand: between any bytes `pre`
and `post` they decode, without a throw, to the codepoints `cps`, the last call ending
exactly at the end of `a`. -/
def ValidBytes (dec : Utf8Decoder) (a : List Nat) (cps : List Nat) : Prop :=
  ∀ pre post : List Nat,
    decode_segment dec (pre ++ a ++ post) a.length pre.length (pre.length + a.length) = some cps

/-- The byte `x` cannot start a sequence: `decodeUtf8` throws at it wherever it stands. -/
def InvalidStart (dec : Utf8Decoder) (x : Nat) : Prop :=
  ∀ pre post : List Nat, dec.decode (pre ++ [x] ++ post) pre.length = none

/-! ## Theorems -/

/-! ### InternalChar -/

theorem testBit_of_lt_two_pow_31 (c i : Nat) (h : c < 2 ^ 31) (hi : 31 ≤ i) :
    c.testBit i = false :=
  Nat.testBit_lt_two_pow (lt_of_lt_of_le h (Nat.pow_le_pow_right (by norm_num) hi))

/-- `codepoint()` returns the codepoint the character was built from. -/
theorem InternalChar.codepoint_make (c : Nat) (b : Bool) (h : c < 2 ^ 31) :
    (InternalChar.make c b).codepoint = c := by
  have e : (0x7FFFFFFF : Nat) = 2 ^ 31 - 1 := by norm_num
  simp only [InternalChar.make, InternalChar.codepoint, e]
  apply Nat.eq_of_testBit_eq
  intro i
  rw [Nat.testBit_and, Nat.testBit_or, Nat.testBit_two_pow_sub_one, Nat.testBit_shiftLeft]
  by_cases hi : i < 31
  · have : ¬ (i ≥ 31) := by omega
    simp [hi, this]
  · simp [hi, testBit_of_lt_two_pow_31 c i h (by omega)]

/-- `italic()` returns the flag the character was built from. -/
theorem InternalChar.italic_make (c : Nat) (b : Bool) (h : c < 2 ^ 31) :
    (InternalChar.make c b).italic = b := by
  simp only [InternalChar.make, InternalChar.italic]
  cases b
  · have : c / 2147483648 = 0 := by omega
    simp [Nat.shiftRight_eq_div_pow, this]
  · simp only [if_true, Nat.shiftRight_eq_div_pow]
    have hb : (c ||| 1 <<< 31).testBit 31 = true := by
      rw [Nat.testBit_or, Nat.testBit_shiftLeft]; simp
    have hle : 2 ^ 31 ≤ c ||| 1 <<< 31 := Nat.testBit_implies_ge hb
    have : 0 < (c ||| 1 <<< 31) / 2 ^ 31 := Nat.div_pos hle (by norm_num)
    simp only [bne_iff_ne, ne_eq]
    omega

theorem map_codepoint_make (r : List Nat) (b : Bool) (h : ∀ c ∈ r, c < 2 ^ 31) :
    (r.map (fun c => InternalChar.make c b)).map InternalChar.codepoint = r := by
  induction r with
  | nil => rfl
  | cons c rest ih =>
    simp only [List.map_cons, InternalChar.codepoint_make c b (h c (by simp))]
    rw [ih (fun c hc => h c (by simp [hc]))]

theorem map_styled_make (r : List Nat) (b : Bool) (h : ∀ c ∈ r, c < 2 ^ 31) :
    (r.map (fun c => InternalChar.make c b)).map (fun c => (c.codepoint, c.italic))
      = r.map (fun c => (c, b)) := by
  induction r with
  | nil => rfl
  | cons c rest ih =>
    simp only [List.map_cons, InternalChar.codepoint_make c b (h c (by simp)),
      InternalChar.italic_make c b (h c (by simp))]
    rw [ih (fun c hc => h c (by simp [hc]))]

/-! ### TagTracker and get_internal_chars -/

/-- A codepoint other than `<`, put outside a tag, leaves the tracker outside a tag and
changes neither flag. -/
theorem TagTracker.put_plain (t : TagTracker) (c : Nat) (hc : c ≠ 60)
    (ht : t.state_ = 0 ∨ t.state_ = 62) :
    t.put c = { t with state_ := 0 } := by
  obtain ⟨it, st, cl⟩ := t
  rcases ht with h | h <;> simp only at h <;> subst h <;> simp [TagTracker.put, hc]

/-- Outside a tag, a run without `<` is kept whole, with the tracker's italic flag. -/
theorem cps_plain (r : List Nat) (hr : 60 ∉ r) (t : TagTracker)
    (ht : t.state_ = 0 ∨ t.state_ = 62) :
    get_internal_chars_cps r t =
      (r.map (fun c => InternalChar.make c t.italic_),
        if r = [] then t else { t with state_ := 0 }) := by
  induction r generalizing t with
  | nil => simp [get_internal_chars_cps]
  | cons c rest ih =>
    have hc : c ≠ 60 := fun h => hr (by simp [h])
    have hrest : 60 ∉ rest := fun h => hr (by simp [h])
    simp only [get_internal_chars_cps, TagTracker.put_plain t c hc ht]
    rw [ih hrest _ (Or.inl rfl)]
    simp [TagTracker.in_tag, TagTracker.italic]

/-- Decoding a concatenation: the second part starts from the tracker the first left. -/
theorem cps_append (a b : List Nat) (t : TagTracker) :
    get_internal_chars_cps (a ++ b) t =
      ((get_internal_chars_cps a t).1 ++
          (get_internal_chars_cps b (get_internal_chars_cps a t).2).1,
        (get_internal_chars_cps b (get_internal_chars_cps a t).2).2) := by
  induction a generalizing t with
  | nil => simp [get_internal_chars_cps]
  | cons c rest ih =>
    rw [List.cons_append]
    simp only [get_internal_chars_cps]
    rw [ih]
    split <;> simp

/-- The tracker after the loop is the tracker after putting every codepoint. -/
theorem cps_tracker (a : List Nat) (t : TagTracker) :
    (get_internal_chars_cps a t).2 = t.putAll a := by
  induction a generalizing t with
  | nil => rfl
  | cons c rest ih => simp [get_internal_chars_cps, ih, TagTracker.putAll]

theorem cps_open (t : TagTracker) (ht : t.state_ = 0 ∨ t.state_ = 62) :
    get_internal_chars_cps [60, 105, 62] t =
      ([], { italic_ := true, state_ := 62, closing_ := false }) := by
  rcases ht with h | h <;> simp [get_internal_chars_cps, TagTracker.put, h, TagTracker.in_tag]

theorem cps_close (t : TagTracker) (ht : t.state_ = 0 ∨ t.state_ = 62) :
    get_internal_chars_cps [60, 47, 105, 62] t =
      ([], { italic_ := false, state_ := 62, closing_ := true }) := by
  rcases ht with h | h <;> simp [get_internal_chars_cps, TagTracker.put, h, TagTracker.in_tag]

theorem cps_segment (s : Segment) (hs : s.wf) (t : TagTracker)
    (ht : t.state_ = 0 ∨ t.state_ = 62) :
    (get_internal_chars_cps s.chars t).1.map InternalChar.codepoint = s.visible ∧
      ((get_internal_chars_cps s.chars t).2.state_ = 0 ∨
        (get_internal_chars_cps s.chars t).2.state_ = 62) := by
  cases s with
  | plain run =>
    obtain ⟨h60, hlt⟩ := hs
    simp only [Segment.chars, Segment.visible, cps_plain run h60 t ht]
    refine ⟨map_codepoint_make run _ hlt, ?_⟩
    split
    · exact ht
    · exact Or.inl rfl
  | open_i => simp [Segment.chars, Segment.visible, cps_open t ht]
  | close_i => simp [Segment.chars, Segment.visible, cps_close t ht]

theorem cps_segments (segs : List Segment) (h : ∀ s ∈ segs, s.wf) (t : TagTracker)
    (ht : t.state_ = 0 ∨ t.state_ = 62) :
    (get_internal_chars_cps (segs.map Segment.chars).flatten t).1.map InternalChar.codepoint
      = (segs.map Segment.visible).flatten := by
  induction segs generalizing t with
  | nil => simp [get_internal_chars_cps]
  | cons s rest ih =>
    obtain ⟨h1, h2⟩ := cps_segment s (h s (by simp)) t ht
    simp only [List.map_cons, List.flatten_cons, cps_append, List.map_append, h1]
    rw [ih (fun s hs => h s (by simp [hs])) _ h2]

/-- C1: for text built from plain runs without `<` and the tokens `<i>`, `</i>`, decoding
with a fresh TagTracker yields exactly the codepoints of the plain runs, in order; every
character of the tokens is removed. -/
theorem decode_strips_italic_markup (segs : List Segment) (h : ∀ s ∈ segs, s.wf) :
    (get_internal_chars_cps (segs.map Segment.chars).flatten TagTracker.fresh).1.map
        InternalChar.codepoint
      = (segs.map Segment.visible).flatten :=
  cps_segments segs h TagTracker.fresh (Or.inl rfl)

theorem decode_strips_italic_markup_witness :
    (∀ s ∈ [Segment.plain [97, 62], .open_i, .plain [98], .close_i, .plain [105, 47]],
        s.wf) ∧
    (get_internal_chars_cps
        ([Segment.plain [97, 62], .open_i, .plain [98], .close_i, .plain [105, 47]].map
          Segment.chars).flatten TagTracker.fresh).1.map InternalChar.codepoint
      = ([Segment.plain [97, 62], .open_i, .plain [98], .close_i, .plain [105, 47]].map
          Segment.visible).flatten :=
  ⟨by simp [Segment.wf], decode_strips_italic_markup _ (by simp [Segment.wf])⟩

/-- C2: decoding `<i>` w `</i>` v with a fresh TagTracker, for runs w and v without `<`,
yields the characters of w with italic = true followed by those of v with
italic = false; `<i>Hi</i> there` gives H, i italic and ' ', t, h, e, r, e not italic. -/
theorem decode_italic_span (w v : List Nat) (hw : 60 ∉ w) (hv : 60 ∉ v)
    (hwc : ∀ c ∈ w, c < 2 ^ 31) (hvc : ∀ c ∈ v, c < 2 ^ 31) :
    (get_internal_chars_cps ([60, 105, 62] ++ w ++ [60, 47, 105, 62] ++ v)
        TagTracker.fresh).1.map (fun c => (c.codepoint, c.italic))
      = w.map (fun c => (c, true)) ++ v.map (fun c => (c, false)) ∧
    (get_internal_chars_cps [60, 105, 62, 72, 105, 60, 47, 105, 62, 32, 116, 104, 101, 114, 101]
        TagTracker.fresh).1.map (fun c => (c.codepoint, c.italic))
      = [(72, true), (105, true), (32, false), (116, false), (104, false), (101, false),
          (114, false), (101, false)] := by
  constructor
  · have h1 := cps_open TagTracker.fresh (Or.inl rfl)
    have h2 := cps_plain w hw { italic_ := true, state_ := 62, closing_ := false } (Or.inr rfl)
    have h3 : ∀ t : TagTracker, t.state_ = 0 ∨ t.state_ = 62 →
        get_internal_chars_cps ([60, 47, 105, 62] ++ v) t =
          (v.map (fun c => InternalChar.make c false),
            (get_internal_chars_cps ([60, 47, 105, 62] ++ v) t).2) := by
      intro t ht
      rw [cps_append, cps_close t ht, cps_plain v hv _ (Or.inr rfl)]
      simp
    rw [List.append_assoc, List.append_assoc, cps_append, h1]
    simp only [List.nil_append]
    rw [cps_append, h2]
    simp only
    rw [h3]
    · simp only [List.map_append, map_styled_make w true hwc, map_styled_make v false hvc]
    · split
      · exact Or.inr rfl
      · exact Or.inl rfl
  · decide

theorem decode_italic_span_witness :
    (get_internal_chars_cps ([60, 105, 62] ++ [72, 105] ++ [60, 47, 105, 62] ++ [33])
        TagTracker.fresh).1.map (fun c => (c.codepoint, c.italic))
      = [72, 105].map (fun c => (c, true)) ++ [33].map (fun c => (c, false)) :=
  (decode_italic_span [72, 105] [33] (by decide) (by decide) (by decide) (by decide)).1

/-- Inside a tag whose `i` has been seen, characters other than `<` and `>` change
nothing. -/
theorem TagTracker.putAll_state_i (body : List Nat) (h60 : 60 ∉ body) (h62 : 62 ∉ body)
    (t : TagTracker) (ht : t.state_ = 105) : t.putAll body = t := by
  induction body generalizing t with
  | nil => rfl
  | cons c rest ih =>
    have hc60 : c ≠ 60 := fun h => h60 (by simp [h])
    have hc62 : c ≠ 62 := fun h => h62 (by simp [h])
    have hput : t.put c = t := by
      obtain ⟨it, st, cl⟩ := t
      simp only at ht
      subst ht
      by_cases h47 : c = 47
      · subst h47; simp [TagTracker.put]
      · by_cases h105 : c = 105
        · subst h105; simp [TagTracker.put]
        · simp [TagTracker.put, hc60, hc62, h47, h105]
    simp only [TagTracker.putAll, List.foldl_cons, hput]
    exact ih (fun h => h60 (by simp [h])) (fun h => h62 (by simp [h])) t ht

/-- Right after `<`, the body of a tag moves the tracker to state `i` when it holds an
`i`, and sets the closing flag when a `/` comes before the first `i`. -/
theorem TagTracker.putAll_state_lt (body : List Nat) (h60 : 60 ∉ body) (h62 : 62 ∉ body)
    (t : TagTracker) (ht : t.state_ = 60) :
    t.putAll body =
      { italic_ := t.italic_,
        state_ := if body.contains 105 then 105 else 60,
        closing_ := t.closing_ || (body.takeWhile (fun c => c != 105)).contains 47 } := by
  induction body generalizing t with
  | nil => simp [TagTracker.putAll, ht.symm]
  | cons c rest ih =>
    have hc60 : c ≠ 60 := fun h => h60 (by simp [h])
    have hc62 : c ≠ 62 := fun h => h62 (by simp [h])
    have hr60 : 60 ∉ rest := fun h => h60 (by simp [h])
    have hr62 : 62 ∉ rest := fun h => h62 (by simp [h])
    obtain ⟨it, st, cl⟩ := t
    simp only at ht
    subst ht
    by_cases h105 : c = 105
    · subst h105
      have hput : TagTracker.put ⟨it, 60, cl⟩ 105 = ⟨it, 105, cl⟩ := by simp [TagTracker.put]
      have := TagTracker.putAll_state_i rest hr60 hr62 ⟨it, 105, cl⟩ rfl
      simp only [TagTracker.putAll, List.foldl_cons, hput] at this ⊢
      rw [this]
      simp
    · by_cases h47 : c = 47
      · subst h47
        have hput : TagTracker.put ⟨it, 60, cl⟩ 47 = ⟨it, 60, true⟩ := by simp [TagTracker.put]
        have := ih hr60 hr62 ⟨it, 60, true⟩ rfl
        simp only [TagTracker.putAll, List.foldl_cons, hput] at this ⊢
        rw [this]
        simp [List.takeWhile_cons]
      · have hput : TagTracker.put ⟨it, 60, cl⟩ c = ⟨it, 60, cl⟩ := by
          simp [TagTracker.put, hc60, hc62, h47, h105]
        have := ih hr60 hr62 ⟨it, 60, cl⟩ rfl
        simp only [TagTracker.putAll, List.foldl_cons, hput] at this ⊢
        rw [this]
        have e1 : (c == 105) = false := by simpa using h105
        have e2 : (c != 105) = true := by simpa using h105
        have e3 : (c == 47) = false := by simpa using h47
        simp [List.takeWhile_cons, List.contains_cons, e1, e2, e3, Ne.symm h105, Ne.symm h47]

theorem TagTracker.putAll_append (t : TagTracker) (a b : List Nat) :
    t.putAll (a ++ b) = (t.putAll a).putAll b := by
  simp [TagTracker.putAll, List.foldl_append]

/-- C3, as the code has it: a tag `<body>` fed to a TagTracker in the Normal state, with
no `<` or `>` in the body, leaves italic() as it was when the body holds no `i`; a body
holding an `i` sets italic() to true, or to false when a `/` comes before its first `i`.
The tracker ends in the just-closed state. -/
theorem tag_italic_effect (t : TagTracker) (body : List Nat) (ht : t.state_ = 0)
    (h60 : 60 ∉ body) (h62 : 62 ∉ body) :
    (t.putAll ([60] ++ body ++ [62])).italic = tagItalic t.italic body ∧
    (105 ∉ body → (t.putAll ([60] ++ body ++ [62])).italic = t.italic) ∧
    (t.putAll ([60] ++ body ++ [62])).state_ = 62 := by
  have hopen : t.putAll [60] = ⟨t.italic_, 60, false⟩ := by
    obtain ⟨it, st, cl⟩ := t
    simp only at ht
    subst ht
    simp [TagTracker.putAll, TagTracker.put]
  have hbody := TagTracker.putAll_state_lt body h60 h62 ⟨t.italic_, 60, false⟩ rfl
  have hall : t.putAll ([60] ++ body ++ [62]) =
      ⟨tagItalic t.italic_ body, 62, (body.takeWhile (fun c => c != 105)).contains 47⟩ := by
    rw [TagTracker.putAll_append, TagTracker.putAll_append, hopen, hbody]
    by_cases hi : body.contains 105 = true
    · simp only [hi, if_true, tagItalic]
      simp [TagTracker.putAll, TagTracker.put]
    · simp only [hi, tagItalic]
      simp [TagTracker.putAll, TagTracker.put]
  rw [hall]
  refine ⟨rfl, ?_, rfl⟩
  intro hno
  have : body.contains 105 = false := by simpa using hno
  simp only [TagTracker.italic, tagItalic, this]
  simp

theorem tag_italic_effect_witness :
    (TagTracker.fresh.putAll ([60] ++ [47, 98] ++ [62])).italic
        = tagItalic TagTracker.fresh.italic [47, 98] ∧
    (105 ∉ [47, 98] →
      (TagTracker.fresh.putAll ([60] ++ [47, 98] ++ [62])).italic = TagTracker.fresh.italic) ∧
    (TagTracker.fresh.putAll ([60] ++ [47, 98] ++ [62])).state_ = 62 :=
  tag_italic_effect TagTracker.fresh [47, 98] rfl (by decide) (by decide)

/-- C3 as stated fails: the tag `<img>`, whose body is neither `i` nor `/i`, turns
italic on. -/
theorem tag_italic_counterexample :
    ¬ (∀ (t : TagTracker) (body : List Nat), t.state_ = 0 → 60 ∉ body → 62 ∉ body →
        body ≠ [105] → body ≠ [47, 105] →
        (t.putAll ([60] ++ body ++ [62])).italic = t.italic) := by
  intro h
  have := h TagTracker.fresh [105, 109, 103] rfl (by decide) (by decide) (by decide)
    (by decide)
  revert this
  decide

/-! ### Bytes and codepoints -/

/-- The loop of `get_internal_chars` on bytes is the loop on the codepoints that
`decodeUtf8` returns. -/
theorem get_internal_chars_loop_eq (dec : Utf8Decoder) (str : List Nat) (fuel : Nat) :
    ∀ (i : Nat) (t : TagTracker) (acc : List InternalChar),
    get_internal_chars_loop dec str fuel i t acc =
      (acc ++ (get_internal_chars_cps (decoded_codepoints_loop dec str fuel i) t).1,
        (get_internal_chars_cps (decoded_codepoints_loop dec str fuel i) t).2) := by
  induction fuel with
  | zero =>
    intro i t acc
    simp [get_internal_chars_loop, decoded_codepoints_loop, get_internal_chars_cps]
  | succ fuel ih =>
    intro i t acc
    simp only [get_internal_chars_loop, decoded_codepoints_loop]
    by_cases hi : i < str.length
    · simp only [hi, if_true]
      cases hd : dec.decode str i with
      | none => simp only [ih]
      | some r =>
        obtain ⟨cp, j⟩ := r
        simp only [ih, push_decoded, get_internal_chars_cps]
        by_cases ht : (t.put cp).in_tag = true
        · simp [ht]
        · simp [ht]
    · simp [hi, get_internal_chars_cps]

/-- The function `get_internal_chars` on the bytes of a string is `get_internal_chars_cps`
on the codepoints decoded from it. -/
theorem get_internal_chars_eq_cps (dec : Utf8Decoder) (str : List Nat) (t : TagTracker) :
    get_internal_chars dec str t = get_internal_chars_cps (decoded_codepoints dec str) t := by
  rw [get_internal_chars, get_internal_chars_loop_eq]
  simp [decoded_codepoints]

/-- The bound `str.length` on the iterations of the loop of `get_internal_chars` is never
reached: once the fuel covers the bytes left, more fuel gives the same result. -/
theorem get_internal_chars_loop_fuel (dec : Utf8Decoder) (str : List Nat) (fuel : Nat) :
    ∀ (fuel1 i : Nat) (t : TagTracker) (acc : List InternalChar),
    str.length ≤ i + fuel → str.length ≤ i + fuel1 →
    get_internal_chars_loop dec str fuel i t acc =
      get_internal_chars_loop dec str fuel1 i t acc := by
  induction fuel with
  | zero =>
    intro fuel1 i t acc h h1
    cases fuel1 with
    | zero => rfl
    | succ f1 =>
      have : ¬ i < str.length := by omega
      simp [get_internal_chars_loop, this]
  | succ fuel ih =>
    intro fuel1 i t acc h h1
    by_cases hi : i < str.length
    · cases fuel1 with
      | zero => omega
      | succ f1 =>
        simp only [get_internal_chars_loop, hi, if_true]
        cases hd : dec.decode str i with
        | none => exact ih f1 (i + 1) t acc (by omega) (by omega)
        | some r =>
          obtain ⟨cp, j⟩ := r
          have hj := dec.advances str i cp j hd
          exact ih f1 j _ _ (by omega) (by omega)
    · cases fuel1 with
      | zero => simp [get_internal_chars_loop, hi]
      | succ f1 => simp [get_internal_chars_loop, hi]

/-- On bytes below `0x80` the example decoder returns the bytes themselves. -/
theorem decoded_codepoints_loop_ascii (str : List Nat) (h : ∀ b ∈ str, b < 128) (fuel : Nat) :
    ∀ i, str.length ≤ i + fuel →
      decoded_codepoints_loop asciiDecoder str fuel i = str.drop i := by
  induction fuel with
  | zero =>
    intro i hi
    simp only [decoded_codepoints_loop]
    rw [List.drop_eq_nil_of_le (by omega)]
  | succ fuel ih =>
    intro i hi
    simp only [decoded_codepoints_loop]
    by_cases hlt : i < str.length
    · have hb : str[i] < 128 := h _ (List.getElem_mem hlt)
      have hd : asciiDecoder.decode str i = some (str[i], i + 1) := by
        simp [asciiDecoder, List.getElem?_eq_getElem hlt, hb]
      simp only [hlt, if_true, hd]
      rw [ih (i + 1) (by omega)]
      exact (List.drop_eq_getElem_cons hlt).symm
    · simp only [hlt, if_false]
      rw [List.drop_eq_nil_of_le (by omega)]

theorem decoded_codepoints_ascii (str : List Nat) (h : ∀ b ∈ str, b < 128) :
    decoded_codepoints asciiDecoder str = str := by
  rw [decoded_codepoints, decoded_codepoints_loop_ascii str h str.length 0 (by omega)]
  rfl

/-! ### Single-precision arithmetic -/

theorem roundHalfEven_intCast (n : ℤ) : roundHalfEven (n : ℚ) = n := by
  simp [roundHalfEven]

/-- An upper bound on the magnitude bounds the binade exponent. -/
theorem f32Exponent_le (q : ℚ) (hq : q ≠ 0) (k : ℤ) (hk : -126 ≤ k) (h : |q| < 2 ^ (k + 1)) :
    f32Exponent q ≤ k := by
  unfold f32Exponent
  have hpos : 0 < |q| := abs_pos.mpr hq
  have := (Int.lt_zpow_iff_log_lt (b := 2) (by norm_num) hpos (x := k + 1)).mp (by exact_mod_cast h)
  exact max_le (by omega) hk

/-- A number `m * 2^k` with `|m| < 2^24` is a `float` value: rounding leaves it as it is. -/
theorem f32_of_scaled_int (m k : ℤ) (hm : |m| < 2 ^ 24) (hk : -149 ≤ k) :
    f32 ((m : ℚ) * 2 ^ k) = (m : ℚ) * 2 ^ k := by
  by_cases hm0 : m = 0
  · simp [f32, hm0]
  have h2 : (0 : ℚ) < 2 ^ k := zpow_pos (by norm_num) k
  have hq : (m : ℚ) * 2 ^ k ≠ 0 := mul_ne_zero (by exact_mod_cast hm0) (ne_of_gt h2)
  have hlt : |(m : ℚ) * 2 ^ k| < 2 ^ (k + 23 + 1) := by
    rw [abs_mul, abs_of_pos h2]
    have : (|(m : ℚ)|) < 2 ^ (24 : ℤ) := by
      have : ((|m| : ℤ) : ℚ) < ((2 ^ 24 : ℤ) : ℚ) := by exact_mod_cast hm
      rw [Int.cast_abs] at this
      norm_num at this ⊢
      exact this
    calc |(m : ℚ)| * 2 ^ k < 2 ^ (24 : ℤ) * 2 ^ k := by
          exact mul_lt_mul_of_pos_right this h2
      _ = 2 ^ (k + 23 + 1) := by
          rw [← zpow_add₀ (by norm_num : (2 : ℚ) ≠ 0)]; congr 1; ring
  have he : f32Exponent ((m : ℚ) * 2 ^ k) ≤ k + 23 :=
    f32Exponent_le _ hq (k + 23) (by omega) hlt
  simp only [f32, hq, if_false]
  set e := f32Exponent ((m : ℚ) * 2 ^ k) with he_def
  obtain ⟨d, hd⟩ : ∃ d : ℕ, k = e - 23 + d := ⟨(k - (e - 23)).toNat, by omega⟩
  have hsplit : (2 : ℚ) ^ k = 2 ^ (e - 23) * 2 ^ d := by
    rw [hd, zpow_add₀ (by norm_num : (2 : ℚ) ≠ 0)]; simp
  have hne : (2 : ℚ) ^ (e - 23) ≠ 0 := zpow_ne_zero _ (by norm_num)
  have : (m : ℚ) * 2 ^ k / 2 ^ (e - 23) = ((m * 2 ^ d : ℤ) : ℚ) := by
    rw [hsplit]; field_simp; ring
  rw [this, roundHalfEven_intCast, hsplit]
  push_cast
  ring

/-- Integers below `2^24` in magnitude are `float` values. -/
theorem f32_intCast (n : ℤ) (h : |n| < 2 ^ 24) : f32 (n : ℚ) = n := by
  have := f32_of_scaled_int n 0 h (by norm_num)
  simpa using this

/-- Half-integers below `2^22` in magnitude are `float` values. -/
theorem f32_intCast_add_half (n : ℤ) (h : |n| < 2 ^ 22) : f32 ((n : ℚ) + 1 / 2) = n + 1 / 2 := by
  have h1 : |2 * n + 1| < 2 ^ 24 := by
    rw [abs_lt] at h ⊢
    constructor <;> omega
  have := f32_of_scaled_int (2 * n + 1) (-1) h1 (by norm_num)
  have e : ((2 * n + 1 : ℤ) : ℚ) * 2 ^ (-1 : ℤ) = (n : ℚ) + 1 / 2 := by
    push_cast
    rw [zpow_neg_one]
    ring
  rwa [e] at this

theorem float_to_int_zero : float_to_int 0 = 0 := by simp [float_to_int]

/-- Converting an integer-valued `float` to `int` gives that integer. -/
theorem float_to_int_intCast (n : ℤ) : float_to_int (n : ℚ) = n := by
  unfold float_to_int
  split <;> simp

/-- Truncation of a half-integer: `n + 1/2` goes to `n` when `n` is not negative and to
`n + 1` when it is. -/
theorem float_to_int_add_half (n : ℤ) :
    float_to_int ((n : ℚ) + 1 / 2) = if 0 ≤ n then n else n + 1 := by
  unfold float_to_int
  by_cases hn : 0 ≤ n
  · have h0 : (0 : ℚ) ≤ (n : ℚ) + 1 / 2 := by
      have : (0 : ℚ) ≤ (n : ℚ) := by exact_mod_cast hn
      linarith
    rw [if_pos h0, if_pos hn, Int.floor_eq_iff]
    constructor <;> linarith
  · have h0 : ¬ (0 : ℚ) ≤ (n : ℚ) + 1 / 2 := by
      have : (n : ℚ) ≤ -1 := by exact_mod_cast (by omega : n ≤ -1)
      linarith
    rw [if_neg h0, if_neg hn, Int.ceil_eq_iff]
    push_cast
    constructor <;> linarith

/-- A rational less than a half away from an integer rounds to it. -/
theorem roundHalfEven_eq_of_near (q : ℚ) (n : ℤ) (h1 : (n : ℚ) - 1 / 2 < q)
    (h2 : q < (n : ℚ) + 1 / 2) : roundHalfEven q = n := by
  unfold roundHalfEven
  by_cases hq : (n : ℚ) ≤ q
  · have hf : ⌊q⌋ = n := by
      rw [Int.floor_eq_iff]
      constructor <;> linarith
    simp only [hf]
    rw [if_pos (by linarith)]
  · have hf : ⌊q⌋ = n - 1 := by
      rw [Int.floor_eq_iff]
      push_cast
      constructor <;> linarith
    simp only [hf]
    push_cast
    rw [if_neg (by linarith), if_pos (by linarith)]
    ring

/-- The binade exponent of a number between `2^e` and `2^(e+1)`. -/
theorem f32Exponent_eq (q : ℚ) (e : ℤ) (he : -126 ≤ e) (h1 : (2 : ℚ) ^ e ≤ |q|)
    (h2 : |q| < (2 : ℚ) ^ (e + 1)) : f32Exponent q = e := by
  have hpos : 0 < |q| := lt_of_lt_of_le (zpow_pos (by norm_num) e) h1
  have hlog : Int.log 2 |q| = e := by
    apply le_antisymm
    · have := (Int.lt_zpow_iff_log_lt (b := 2) (by norm_num) hpos (x := e + 1)).mp
        (by exact_mod_cast h2)
      omega
    · exact (Int.zpow_le_iff_le_log (b := 2) (by norm_num) hpos (x := e)).mp
        (by exact_mod_cast h1)
  rw [f32Exponent, hlog]
  exact max_eq_left he

/-- Evaluation of `f32`: in the binade of exponent `e`, a number less than half a unit in
the last place away from `n * 2^(e-23)` rounds to it. -/
theorem f32_eq_of_near (q : ℚ) (e n : ℤ) (he : -126 ≤ e) (h1 : (2 : ℚ) ^ e ≤ |q|)
    (h2 : |q| < (2 : ℚ) ^ (e + 1))
    (h3 : (n : ℚ) - 1 / 2 < q / (2 : ℚ) ^ (e - 23))
    (h4 : q / (2 : ℚ) ^ (e - 23) < (n : ℚ) + 1 / 2) :
    f32 q = (n : ℚ) * (2 : ℚ) ^ (e - 23) := by
  have hq : q ≠ 0 := by
    intro h
    rw [h, abs_zero] at h1
    exact absurd h1 (not_le.mpr (zpow_pos (by norm_num) e))
  rw [f32, if_neg hq, f32Exponent_eq q e he h1 h2, roundHalfEven_eq_of_near _ n h3 h4]

/-- Truncation of a `float` that is not negative. -/
theorem float_to_int_eq_of_nonneg (q : ℚ) (n : ℤ) (h1 : (n : ℚ) ≤ q) (h2 : q < (n : ℚ) + 1)
    (h0 : 0 ≤ q) : float_to_int q = n := by
  rw [float_to_int, if_pos h0, Int.floor_eq_iff]
  exact ⟨h1, h2⟩

/-- The constant `0.7f`. -/
theorem f32_seven_tenths : f32 (7 / 10) = 11744051 / 16777216 := by
  rw [f32_eq_of_near (7 / 10) (-1) 11744051 (by norm_num) (by norm_num [abs_of_pos])
    (by norm_num [abs_of_pos]) (by norm_num) (by norm_num)]
  norm_num

/-- The constant `0.05f`. -/
theorem f32_five_hundredths : f32 (5 / 100) = 13421773 / 268435456 := by
  rw [f32_eq_of_near (5 / 100) (-5) 13421773 (by norm_num) (by norm_num [abs_of_pos])
    (by norm_num [abs_of_pos]) (by norm_num) (by norm_num)]
  norm_num

theorem raised_y_max_sample : raised_y_max (-5) 20 = 23 := by
  have e1 : f32 (((-(-5 : ℤ) : ℤ) : ℚ)) = 5 := by
    have := f32_intCast 5 (by norm_num)
    simpa using this
  have e2 : f32 ((20 : ℤ) : ℚ) = 20 := by
    have := f32_intCast 20 (by norm_num)
    simpa using this
  have e3 : f32 ((5 : ℚ) * (11744051 / 16777216)) = 7 / 2 := by
    rw [f32_eq_of_near _ 1 14680064 (by norm_num) (by norm_num [abs_of_pos])
      (by norm_num [abs_of_pos]) (by norm_num) (by norm_num)]
    norm_num
  have e4 : f32 ((20 : ℚ) + 7 / 2) = 47 / 2 := by
    rw [f32_eq_of_near _ 4 12320768 (by norm_num) (by norm_num [abs_of_pos])
      (by norm_num [abs_of_pos]) (by norm_num) (by norm_num)]
    norm_num
  rw [raised_y_max, e1, e2, f32_seven_tenths, e3, e4]
  exact float_to_int_eq_of_nonneg _ 23 (by norm_num) (by norm_num) (by norm_num)

theorem v_padding_sample : v_padding 28 = 1 := by
  have e1 : f32 ((28 : ℤ) : ℚ) = 28 := by
    have := f32_intCast 28 (by norm_num)
    simpa using this
  have e2 : f32 ((28 : ℚ) * (13421773 / 268435456)) = 11744051 / 8388608 := by
    rw [f32_eq_of_near _ 0 11744051 (by norm_num) (by norm_num [abs_of_pos])
      (by norm_num [abs_of_pos]) (by norm_num) (by norm_num)]
    norm_num
  have e3 : f32 ((11744051 : ℚ) / 8388608 + 1 / 2) = 15938355 / 8388608 := by
    rw [f32_eq_of_near _ 0 15938355 (by norm_num) (by norm_num [abs_of_pos])
      (by norm_num [abs_of_pos]) (by norm_num) (by norm_num)]
    norm_num
  rw [v_padding, e1, f32_five_hundredths, e2, e3]
  exact float_to_int_eq_of_nonneg _ 1 (by norm_num) (by norm_num) (by norm_num)

theorem h_padding_sample : h_padding 30 = 6 := by
  have e1 : f32 ((30 : ℤ) : ℚ) = 30 := by
    have := f32_intCast 30 (by norm_num)
    simpa using this
  have e2 : f32 ((30 : ℚ) / 5) = 6 := by
    have := f32_intCast 6 (by norm_num)
    norm_num at this ⊢
    exact this
  have e3 : f32 ((6 : ℚ) + 1 / 2) = 6 + 1 / 2 := by
    have := f32_intCast_add_half 6 (by norm_num)
    simpa using this
  rw [h_padding, e1, e2, e3]
  exact float_to_int_eq_of_nonneg _ 6 (by norm_num) (by norm_num) (by norm_num)

theorem title_line_padding_sample :
    float_to_int (f32 (f32 (f32 ((30 : ℤ) : ℚ) * (1 / 2)) + 1 / 2)) = 15 := by
  have e1 : f32 ((30 : ℤ) : ℚ) = 30 := by
    have := f32_intCast 30 (by norm_num)
    simpa using this
  have e2 : f32 ((30 : ℚ) * (1 / 2)) = 15 := by
    have := f32_intCast 15 (by norm_num)
    norm_num at this ⊢
    exact this
  have e3 : f32 ((15 : ℚ) + 1 / 2) = 15 + 1 / 2 := by
    have := f32_intCast_add_half 15 (by norm_num)
    simpa using this
  rw [e1, e2, e3]
  exact float_to_int_eq_of_nonneg _ 15 (by norm_num) (by norm_num) (by norm_num)

/-- What `initialize_fonts` computes for the sample metrics. -/
theorem initialize_fonts_sample :
    initialize_fonts sampleMetrics =
      { buffer_width := 0, buffer_height := 0, buffer_y := 0, buffer_x := 0,
        line_height := 30, box_offset := -6, box_h_padding := 6,
        margin_left := 0, margin_bottom := 0,
        title_line_height := 30, title_line_padding := 15,
        title_box_offset := -6, title_box_h_padding := 6 } := by
  have h28 : (23 : ℤ) - -5 = 28 := by norm_num
  have h30 : (28 : ℤ) + 1 * 2 = 30 := by norm_num
  have h6 : (-5 : ℤ) - 1 = -6 := by norm_num
  simp only [initialize_fonts, sampleMetrics, raised_y_max_sample, h28, v_padding_sample, h30,
    h_padding_sample, title_line_padding_sample, h6]

/-- The configuration of the sample renderer, as the constructor computes it. -/
theorem sampleRenderer_config :
    sampleRenderer.config_ =
      { buffer_width := 1920, buffer_height := 152, buffer_y := 868, buffer_x := 0,
        line_height := 30, box_offset := -6, box_h_padding := 6,
        margin_left := 120, margin_bottom := 14,
        title_line_height := 30, title_line_padding := 15,
        title_box_offset := -6, title_box_h_padding := 6 } := by
  have e1 : f32 ((1080 : ℕ) : ℚ) = 1080 := by
    have := f32_intCast 1080 (by norm_num)
    simpa using this
  have e2 : f32 ((1920 : ℕ) : ℚ) = 1920 := by
    have := f32_intCast 1920 (by norm_num)
    simpa using this
  have e3 : f32 ((1 : ℚ) / 16 * 1080) = 67 + 1 / 2 := by
    have := f32_intCast_add_half 67 (by norm_num)
    norm_num at this ⊢
    exact this
  have e4 : f32 ((67 : ℚ) + 1 / 2 + 1 / 2) = 68 := by
    have := f32_intCast 68 (by norm_num)
    norm_num at this ⊢
    exact this
  have e5 : f32 ((1 : ℚ) / 16 * 1920) = 120 := by
    have := f32_intCast 120 (by norm_num)
    norm_num at this ⊢
    exact this
  have e6 : f32 ((120 : ℚ) + 1 / 2) = 120 + 1 / 2 := by
    have := f32_intCast_add_half 120 (by norm_num)
    simpa using this
  have e7 : float_to_int (68 : ℚ) = 68 := by
    have := float_to_int_intCast 68
    simpa using this
  have e8 : float_to_int ((120 : ℚ) + 1 / 2) = 120 :=
    float_to_int_eq_of_nonneg _ 120 (by norm_num) (by norm_num) (by norm_num)
  have t1 : to_int32 1080 = 1080 := by decide
  have t2 : to_int32 1920 = 1920 := by decide
  have t3 : to_int32 3 = 3 := by decide
  simp only [sampleRenderer, construct, constructor_config, initialize_fonts_sample, e1, e2, e3,
    e4, e5, e6, e7, e8, t1, t2, t3]
  decide

/-! ### The glyph cache -/

theorem GlyphMap.find_assign_self (m : GlyphMap) (c : InternalChar) (a : Int) :
    GlyphMap.find (GlyphMap.assign m c a) c = some { advance := a } := by
  induction m with
  | nil => simp [GlyphMap.assign, GlyphMap.find]
  | cons p rest ih =>
    obtain ⟨k, g⟩ := p
    by_cases h : k = c
    · simp [GlyphMap.assign, GlyphMap.find, h]
    · simp [GlyphMap.assign, GlyphMap.find, h, ih]

theorem GlyphMap.find_assign_of_ne (m : GlyphMap) (c d : InternalChar) (a : Int) (h : d ≠ c) :
    GlyphMap.find (GlyphMap.assign m c a) d = GlyphMap.find m d := by
  induction m with
  | nil => simp [GlyphMap.assign, GlyphMap.find, Ne.symm h]
  | cons p rest ih =>
    obtain ⟨k, g⟩ := p
    by_cases hk : k = c
    · subst hk
      simp [GlyphMap.assign, GlyphMap.find, Ne.symm h]
    · by_cases hd : k = d
      · subst hd
        simp [GlyphMap.assign, GlyphMap.find, hk]
      · simp [GlyphMap.assign, GlyphMap.find, hk, hd, ih]

theorem load_glyph_try_eq (g : FTGlyph) (border : Bool) :
    load_glyph_try g border =
      if g.fails border then .error "ENFORCE"
      else .ok (f32 (((g.advance_x + 32).tdiv 64 : ℤ) : ℚ)) := by
  obtain ⟨e1, e2, e3, e4, a⟩ := g
  simp only [load_glyph_try, FTGlyph.fails, ENFORCE]
  by_cases h1 : e1 = 0 <;> by_cases h2 : e2 = 0 <;> by_cases h3 : e3 = 0 <;>
    by_cases h4 : e4 = 0 <;> cases border <;>
    simp [h1, h2, h3, h4, bind, Except.bind, pure, Except.pure, throw, throwThe,
      MonadExceptOf.throw]

theorem load_glyph_internal_eq (g : FTGlyph) (border : Bool) :
    load_glyph_internal g border =
      .ok (if g.fails border then 0 else f32 (((g.advance_x + 32).tdiv 64 : ℤ) : ℚ)) := by
  rw [load_glyph_internal, load_glyph_try_eq]
  by_cases h : g.fails border = true
  · simp [h, tryCatch, tryCatchThe, MonadExceptOf.tryCatch, Except.tryCatch, pure, Except.pure]
  · simp [h, tryCatch, tryCatchThe, MonadExceptOf.tryCatch, Except.tryCatch]

/-- The function `load_glyph` returns, whatever FreeType answers: it assigns the recorded
advance in the map of the category and makes two FreeType requests, the filled glyph
and the stroked border. -/
theorem load_glyph_eq (b : Backend) (s : Renderer) (ch : InternalChar) (title : Bool) :
    load_glyph b s ch title = .ok
      (if title then
        { s with
          glyphs_title_ := s.glyphs_title_.assign ch (b.recorded_advance ch title)
          ft_calls := s.ft_calls ++ [(glyph_face ch title, ch.codepoint, false),
            (glyph_face ch title, ch.codepoint, true)] }
      else
        { s with
          glyphs_ := s.glyphs_.assign ch (b.recorded_advance ch title)
          ft_calls := s.ft_calls ++ [(glyph_face ch title, ch.codepoint, false),
            (glyph_face ch title, ch.codepoint, true)] }) := by
  cases title
  · by_cases hi : ch.italic = true
    · by_cases hf : (b.freetype .italic ch.codepoint false).fails false = true <;>
      simp [load_glyph, glyph_face, hi, load_glyph_internal_eq, bind, Except.bind, pure,
        Except.pure, float_to_int_zero, FTGlyph.pixel_advance, hf, Backend.recorded_advance]
    · by_cases hf : (b.freetype .regular ch.codepoint false).fails false = true <;>
      simp [load_glyph, glyph_face, hi, load_glyph_internal_eq, bind, Except.bind, pure,
        Except.pure, float_to_int_zero, FTGlyph.pixel_advance, hf, Backend.recorded_advance]
  · by_cases hf : (b.freetype .title ch.codepoint false).fails false = true <;>
    simp [load_glyph, glyph_face, load_glyph_internal_eq, bind, Except.bind, pure,
        Except.pure, float_to_int_zero, FTGlyph.pixel_advance, hf, Backend.recorded_advance]

/-- One step of `prepare_glyphs`: the state after the check of one character. -/
theorem prepare_glyphs_cons (b : Backend) (s : Renderer) (c : InternalChar)
    (rest : List InternalChar) (title : Bool) :
    prepare_glyphs b s (c :: rest) title =
      if ((s.glyph_map title).find c).isNone then
        (load_glyph b s c title).bind (fun s1 => prepare_glyphs b s1 rest title)
      else prepare_glyphs b s rest title := by
  cases title <;>
  by_cases h : (s.glyphs_.find c).isNone = true <;>
  by_cases h' : (s.glyphs_title_.find c).isNone = true <;>
  simp [prepare_glyphs, Renderer.glyph_map, h, h', bind, pure, Except.pure, Except.bind]

/-- `prepare_glyphs` returns; it changes only the glyph map of its category and the
list of FreeType requests, keeps the entries that were there and leaves every character of
`text` with an entry. -/
theorem prepare_glyphs_spec (b : Backend) (text : List InternalChar) (title : Bool)
    (s : Renderer) :
    ∃ s1, prepare_glyphs b s text title = .ok s1 ∧
      s1 = { s with glyphs_ := s1.glyphs_, glyphs_title_ := s1.glyphs_title_,
                    ft_calls := s1.ft_calls } ∧
      s1.glyph_map (!title) = s.glyph_map (!title) ∧
      (∀ c, (s.glyph_map title).find c ≠ none →
        (s1.glyph_map title).find c = (s.glyph_map title).find c) ∧
      (∀ c ∈ text, (s1.glyph_map title).find c ≠ none) := by
  induction text generalizing s with
  | nil => exact ⟨s, rfl, rfl, rfl, fun _ _ => rfl, by simp⟩
  | cons c rest ih =>
    rw [prepare_glyphs_cons]
    by_cases h : ((s.glyph_map title).find c).isNone = true
    · rw [if_pos h, load_glyph_eq]
      simp only [Except.bind]
      obtain ⟨s1, h1, h2, h3, h4, h5⟩ := ih
        (if title then
          { s with
            glyphs_title_ := s.glyphs_title_.assign c (b.recorded_advance c title)
            ft_calls := s.ft_calls ++ [(glyph_face c title, c.codepoint, false),
              (glyph_face c title, c.codepoint, true)] }
        else
          { s with
            glyphs_ := s.glyphs_.assign c (b.recorded_advance c title)
            ft_calls := s.ft_calls ++ [(glyph_face c title, c.codepoint, false),
              (glyph_face c title, c.codepoint, true)] })
      refine ⟨s1, h1, ?_, ?_, ?_, ?_⟩
      · rw [h2]; cases title <;> simp
      · rw [h3]; cases title <;> simp [Renderer.glyph_map]
      · intro d hd
        have hdc : d ≠ c := by
          rintro rfl
          simp at h
          exact hd h
        rw [h4]
        · cases title <;> simp [Renderer.glyph_map, GlyphMap.find_assign_of_ne _ _ _ _ hdc]
        · cases title <;> simpa [Renderer.glyph_map, GlyphMap.find_assign_of_ne _ _ _ _ hdc] using hd
      · intro d hd
        rcases List.mem_cons.mp hd with rfl | hd
        · rw [h4]
          · cases title <;> simp [Renderer.glyph_map, GlyphMap.find_assign_self]
          · cases title <;> simp [Renderer.glyph_map, GlyphMap.find_assign_self]
        · exact h5 d hd
    · rw [if_neg h]
      obtain ⟨s1, h1, h2, h3, h4, h5⟩ := ih s
      refine ⟨s1, h1, h2, h3, h4, ?_⟩
      intro d hd
      rcases List.mem_cons.mp hd with rfl | hd
      · rw [h4]
        · simpa using h
        · simpa using h
      · exact h5 d hd

theorem get_text_width_loop_eq (s : Renderer) (title : Bool) (text : List InternalChar)
    (h : ∀ c ∈ text, (s.glyph_map title).find c ≠ none) (width : Int) :
    get_text_width_loop s title text width =
      .ok (width + (s.glyph_map title).advance_sum text) := by
  induction text generalizing width with
  | nil => simp [get_text_width_loop, GlyphMap.advance_sum, pure, Except.pure]
  | cons c rest ih =>
    have hc := h c (by simp)
    cases hf : (s.glyph_map title).find c with
    | none => exact absurd hf hc
    | some g =>
      have hf' : (if title = true then s.glyphs_title_ else s.glyphs_).find c = some g := hf
      simp only [get_text_width_loop, hf']
      rw [ih (fun d hd => h d (by simp [hd]))]
      simp [GlyphMap.advance_sum, hf, add_assoc]

theorem get_text_width_eq (s : Renderer) (title : Bool) (text : List InternalChar)
    (h : ∀ c ∈ text, (s.glyph_map title).find c ≠ none) :
    get_text_width s text title = .ok ((s.glyph_map title).advance_sum text) := by
  rw [get_text_width, get_text_width_loop_eq s title text h]
  simp

/-- After `load_glyph` the character has an entry holding the recorded advance, and
`get_text_width` of that character is this advance. -/
theorem load_glyph_entry (b : Backend) (s : Renderer) (ch : InternalChar) (title : Bool) :
    ∃ s1, load_glyph b s ch title = .ok s1 ∧
      (s1.glyph_map title).find ch = some { advance := b.recorded_advance ch title } ∧
      get_text_width s1 [ch] title = .ok (b.recorded_advance ch title) := by
  refine ⟨_, load_glyph_eq b s ch title, ?_⟩
  have h1 : ((if title then
        { s with
          glyphs_title_ := s.glyphs_title_.assign ch (b.recorded_advance ch title)
          ft_calls := s.ft_calls ++ [(glyph_face ch title, ch.codepoint, false),
            (glyph_face ch title, ch.codepoint, true)] }
      else
        { s with
          glyphs_ := s.glyphs_.assign ch (b.recorded_advance ch title)
          ft_calls := s.ft_calls ++ [(glyph_face ch title, ch.codepoint, false),
            (glyph_face ch title, ch.codepoint, true)] }).glyph_map title).find ch
        = some { advance := b.recorded_advance ch title } := by
    cases title <;> simp [Renderer.glyph_map, GlyphMap.find_assign_self]
  refine ⟨h1, ?_⟩
  rw [get_text_width_eq _ title [ch] (by intro c hc; simp at hc; subst hc; rw [h1]; simp)]
  simp only [GlyphMap.advance_sum, List.map_cons, List.map_nil, List.sum_cons, List.sum_nil]
  rw [h1]
  simp

/-- C9, as the code has it: `load_glyph` returns whatever FreeType answers, and the
advance it records for the character is the advance of the filled glyph, or 0 when loading
the filled glyph fails; the stroked border is loaded after the advance is recorded, so
its outcome does not change the entry.  `get_text_width` then counts the character with
the recorded advance. -/
theorem load_glyph_records_advance (b : Backend) (s : Renderer) (ch : InternalChar)
    (title : Bool) :
    ∃ s1, load_glyph b s ch title = .ok s1 ∧
      (s1.glyph_map title).find ch = some
        { advance :=
            if (b.freetype (glyph_face ch title) ch.codepoint false).fails false then 0
            else (b.freetype (glyph_face ch title) ch.codepoint false).pixel_advance } ∧
      get_text_width s1 [ch] title = .ok
        (if (b.freetype (glyph_face ch title) ch.codepoint false).fails false then 0
         else (b.freetype (glyph_face ch title) ch.codepoint false).pixel_advance) :=
  load_glyph_entry b s ch title

/-- C9 as stated fails: FreeType loads the filled glyph of `B` with an advance of 10 pixels
and fails to stroke its border; the advance recorded in `glyphs_` is 10, not 0. -/
theorem load_glyph_border_failure_counterexample :
    (sampleBackend.freetype (glyph_face (InternalChar.make 66 false) false) 66 true).fails true
        = true ∧
    ∃ s1, load_glyph sampleBackend sampleRenderer (InternalChar.make 66 false) false = .ok s1 ∧
      s1.glyphs_.find (InternalChar.make 66 false) = some { advance := 10 } ∧
      get_text_width s1 [InternalChar.make 66 false] false = .ok 10 := by
  refine ⟨by decide, ?_⟩
  obtain ⟨s1, h1, h2, h3⟩ :=
    load_glyph_entry sampleBackend sampleRenderer (InternalChar.make 66 false) false
  unfold Backend.recorded_advance at h2 h3
  have hc : (InternalChar.make 66 false).codepoint = 66 := by decide
  have hf : glyph_face (InternalChar.make 66 false) false = FontFace.regular := by decide
  have hfail : (sampleBackend.freetype FontFace.regular 66 false).fails false = false := by
    decide
  have hadv : (sampleBackend.freetype FontFace.regular 66 false).pixel_advance = 10 := by
    have e : ((640 : ℤ) + 32).tdiv 64 = 10 := by decide
    simp only [FTGlyph.pixel_advance, sampleBackend, e]
    rw [f32_intCast 10 (by norm_num), float_to_int_intCast]
  rw [hc, hf, hfail, hadv] at h2 h3
  exact ⟨s1, h1, h2, h3⟩

/-- C10: for a character without an entry in the map of its category, `prepare_glyphs`
run twice on it, in two calls or in one, calls `load_glyph` once: the first check makes
the two FreeType requests of one `load_glyph` (filled glyph and border) and leaves an
entry, also when loading failed; the second check finds the entry, requests nothing and
returns the state unchanged. -/
theorem prepare_glyphs_loads_once (b : Backend) (s : Renderer) (ch : InternalChar)
    (title : Bool) (h : (s.glyph_map title).find ch = none) :
    ∃ s1, prepare_glyphs b s [ch] title = .ok s1 ∧
      s1.ft_calls = s.ft_calls ++
        [(glyph_face ch title, ch.codepoint, false), (glyph_face ch title, ch.codepoint, true)] ∧
      (s1.glyph_map title).find ch = some { advance := b.recorded_advance ch title } ∧
      prepare_glyphs b s1 [ch] title = .ok s1 ∧
      prepare_glyphs b s [ch, ch] title = .ok s1 := by
  obtain ⟨s1, hload, hfind, -⟩ := load_glyph_entry b s ch title
  have hcalls : s1.ft_calls = s.ft_calls ++
      [(glyph_face ch title, ch.codepoint, false), (glyph_face ch title, ch.codepoint, true)] := by
    have := load_glyph_eq b s ch title
    rw [hload] at this
    injection this with this
    rw [this]
    cases title <;> rfl
  have hnil : ∀ s2 : Renderer, prepare_glyphs b s2 [] title = .ok s2 := fun _ => rfl
  have hsecond : prepare_glyphs b s1 [ch] title = .ok s1 := by
    rw [prepare_glyphs_cons, hfind]
    exact hnil s1
  have hfirst : prepare_glyphs b s [ch] title = .ok s1 := by
    rw [prepare_glyphs_cons, h, if_pos (by rfl), hload]
    exact hnil s1
  refine ⟨s1, hfirst, hcalls, hfind, hsecond, ?_⟩
  rw [prepare_glyphs_cons, h, if_pos (by rfl), hload]
  exact hsecond

theorem prepare_glyphs_loads_once_witness :
    ∃ s1, prepare_glyphs sampleBackend sampleRenderer [InternalChar.make 67 true] false = .ok s1 ∧
      s1.ft_calls = sampleRenderer.ft_calls ++
        [(glyph_face (InternalChar.make 67 true) false, (InternalChar.make 67 true).codepoint,
            false),
          (glyph_face (InternalChar.make 67 true) false, (InternalChar.make 67 true).codepoint,
            true)] ∧
      (s1.glyph_map false).find (InternalChar.make 67 true) = some
        { advance := sampleBackend.recorded_advance (InternalChar.make 67 true) false } ∧
      prepare_glyphs sampleBackend s1 [InternalChar.make 67 true] false = .ok s1 ∧
      prepare_glyphs sampleBackend sampleRenderer
        [InternalChar.make 67 true, InternalChar.make 67 true] false = .ok s1 :=
  prepare_glyphs_loads_once sampleBackend sampleRenderer (InternalChar.make 67 true) false rfl

/-! ### prepare -/

theorem Renderer.staging_lines_set (s : Renderer) (l : PreparedSubtitleLines) :
    (s.set_staging_lines l).staging_lines = l := by
  unfold Renderer.set_staging_lines Renderer.staging_lines
  cases h : s.prepared_lines_active_ <;> simp [h]

theorem Renderer.active_lines_set (s : Renderer) (l : PreparedSubtitleLines) :
    (s.set_staging_lines l).active_lines = s.active_lines := by
  unfold Renderer.set_staging_lines Renderer.active_lines
  cases h : s.prepared_lines_active_ <;> simp [h]

theorem Renderer.config_set (s : Renderer) (l : PreparedSubtitleLines) :
    (s.set_staging_lines l).config_ = s.config_ := by
  unfold Renderer.set_staging_lines
  cases h : s.prepared_lines_active_ <;> simp

theorem Renderer.centered_set (s : Renderer) (l : PreparedSubtitleLines) :
    (s.set_staging_lines l).centered_ = s.centered_ := by
  unfold Renderer.set_staging_lines
  cases h : s.prepared_lines_active_ <;> simp

theorem Renderer.title_prepared_set (s : Renderer) (l : PreparedSubtitleLines) :
    (s.set_staging_lines l).title_prepared_ = s.title_prepared_ := by
  unfold Renderer.set_staging_lines
  cases h : s.prepared_lines_active_ <;> simp

theorem Renderer.prepared_lines_active_set (s : Renderer) (l : PreparedSubtitleLines) :
    (s.set_staging_lines l).prepared_lines_active_ = s.prepared_lines_active_ := by
  unfold Renderer.set_staging_lines
  cases h : s.prepared_lines_active_ <;> simp

/-- Writing the staging slot changes no other member. -/
theorem Renderer.set_staging_lines_frame (s : Renderer) (l : PreparedSubtitleLines) :
    s.set_staging_lines l =
      { s with prepared_lines_0 := (s.set_staging_lines l).prepared_lines_0,
               prepared_lines_1 := (s.set_staging_lines l).prepared_lines_1 } := by
  unfold Renderer.set_staging_lines
  cases h : s.prepared_lines_active_ <;> simp

/-- The members two states share when they differ in the glyph maps, the FreeType
requests and the staging slot only. -/
theorem prepare_glyphs_frame (b : Backend) (text : List InternalChar) (title : Bool)
    (s : Renderer) :
    ∃ s1, prepare_glyphs b s text title = .ok s1 ∧
      s1 = { s with glyphs_ := s1.glyphs_, glyphs_title_ := s1.glyphs_title_,
                    ft_calls := s1.ft_calls } ∧
      get_text_width s1 text title = .ok ((s1.glyph_map title).advance_sum text) := by
  obtain ⟨s1, h1, h2, -, -, h5⟩ := prepare_glyphs_spec b text title s
  exact ⟨s1, h1, h2, get_text_width_eq s1 title text h5⟩

/-- One iteration of the loop of `prepare`: neither `prepare_glyphs` nor
`get_text_width` throws, and the loop goes on from the state with the three vectors
assigned at index `i`. -/
theorem prepare_loop_cons (b : Backend) (n tlh tlp : Int) (text : List Nat)
    (texts : List (List Nat)) (i : Nat) (s : Renderer) (t : TagTracker) :
    ∃ s1 : Renderer, ∃ w : Int,
      s1.config_ = s.config_ ∧ s1.centered_ = s.centered_ ∧
      s1.title_prepared_ = s.title_prepared_ ∧
      s1.prepared_lines_active_ = s.prepared_lines_active_ ∧
      s1.active_lines = s.active_lines ∧
      s1.staging_lines =
        { s.staging_lines with
          internal_lines_ := (s.staging_lines.internal_lines_.set i
            (get_internal_chars b.decodeUtf8 text t).1)
          line_widths_ := (s.staging_lines.line_widths_.set i w)
          line_positions_ := (s.staging_lines.line_positions_.set i
            (if s.centered_ then centered_x s.config_.buffer_width w else s.config_.margin_left,
              s.config_.margin_bottom + tlh + tlp + (n - i - 1) * s.config_.line_height)) } ∧
      prepare_loop b n tlh tlp (text :: texts) i s t =
        prepare_loop b n tlh tlp texts (i + 1) s1 (get_internal_chars b.decodeUtf8 text t).2 := by
  obtain ⟨sg, hg, hframe, hw⟩ := prepare_glyphs_frame b (get_internal_chars b.decodeUtf8 text t).1
    false (s.set_staging_lines
      { s.staging_lines with internal_lines_ := (s.staging_lines.internal_lines_.set i
          (get_internal_chars b.decodeUtf8 text t).1) })
  have hcfg : sg.config_ = s.config_ := by
    rw [hframe, Renderer.set_staging_lines_frame]
  have hcen : sg.centered_ = s.centered_ := by
    rw [hframe, Renderer.set_staging_lines_frame]
  have htp : sg.title_prepared_ = s.title_prepared_ := by
    rw [hframe, Renderer.set_staging_lines_frame]
  have hact : sg.prepared_lines_active_ = s.prepared_lines_active_ := by
    rw [hframe, Renderer.set_staging_lines_frame]
  have hstag : sg.staging_lines = { s.staging_lines with
      internal_lines_ := (s.staging_lines.internal_lines_.set i
        (get_internal_chars b.decodeUtf8 text t).1) } := by
    rw [hframe]
    exact Renderer.staging_lines_set _ _
  have hal : sg.active_lines = s.active_lines := by
    rw [hframe]
    exact Renderer.active_lines_set _ _
  refine ⟨(sg.set_staging_lines { sg.staging_lines with
        line_widths_ := (sg.staging_lines.line_widths_.set i
          ((sg.glyph_map false).advance_sum (get_internal_chars b.decodeUtf8 text t).1)) }).set_staging_lines
      { (sg.set_staging_lines { sg.staging_lines with
          line_widths_ := (sg.staging_lines.line_widths_.set i
            ((sg.glyph_map false).advance_sum
              (get_internal_chars b.decodeUtf8 text t).1)) }).staging_lines with
        line_positions_ := ((sg.set_staging_lines { sg.staging_lines with
          line_widths_ := (sg.staging_lines.line_widths_.set i
            ((sg.glyph_map false).advance_sum
              (get_internal_chars b.decodeUtf8 text t).1)) }).staging_lines.line_positions_.set i
          (if sg.centered_ then centered_x sg.config_.buffer_width
              ((sg.glyph_map false).advance_sum (get_internal_chars b.decodeUtf8 text t).1)
            else sg.config_.margin_left,
            sg.config_.margin_bottom + tlh + tlp + (n - i - 1) * sg.config_.line_height)) },
    (sg.glyph_map false).advance_sum (get_internal_chars b.decodeUtf8 text t).1, ?_⟩
  refine ⟨?_, ?_, ?_, ?_, ?_, ?_, ?_⟩
  · rw [Renderer.set_staging_lines_frame, Renderer.set_staging_lines_frame sg]; exact hcfg
  · rw [Renderer.set_staging_lines_frame, Renderer.set_staging_lines_frame sg]; exact hcen
  · rw [Renderer.set_staging_lines_frame, Renderer.set_staging_lines_frame sg]; exact htp
  · rw [Renderer.set_staging_lines_frame, Renderer.set_staging_lines_frame sg]; exact hact
  · rw [Renderer.active_lines_set, Renderer.active_lines_set]; exact hal
  · rw [Renderer.staging_lines_set, Renderer.staging_lines_set, hstag, hcen, hcfg]
  · simp only [prepare_loop, bind, Except.bind, hg, hw, Renderer.config_set,
      Renderer.centered_set, Renderer.staging_lines_set]

/-- The loop of `prepare` returns.  It keeps the configuration, the flags and the active
slot, keeps the lengths of the vectors of the staging slot and their elements below `i`,
and gives each element from `i` on the width and the position of its line. -/
theorem prepare_loop_spec (b : Backend) (n tlh tlp : Int) (texts : List (List Nat)) :
    ∀ (i : Nat) (s : Renderer) (t : TagTracker),
    ∃ s1, prepare_loop b n tlh tlp texts i s t = .ok s1 ∧
      s1.config_ = s.config_ ∧ s1.centered_ = s.centered_ ∧
      s1.title_prepared_ = s.title_prepared_ ∧
      s1.prepared_lines_active_ = s.prepared_lines_active_ ∧
      s1.active_lines = s.active_lines ∧
      s1.staging_lines.prepared_ = s.staging_lines.prepared_ ∧
      s1.staging_lines.line_widths_.length = s.staging_lines.line_widths_.length ∧
      s1.staging_lines.line_positions_.length = s.staging_lines.line_positions_.length ∧
      (∀ j, j < i → s1.staging_lines.line_widths_[j]? = s.staging_lines.line_widths_[j]? ∧
        s1.staging_lines.line_positions_[j]? = s.staging_lines.line_positions_[j]?) ∧
      (∀ j, i ≤ j → j < i + texts.length → j < s.staging_lines.line_widths_.length →
        j < s.staging_lines.line_positions_.length →
        ∃ w, s1.staging_lines.line_widths_[j]? = some w ∧
          s1.staging_lines.line_positions_[j]? = some
            (if s.centered_ then centered_x s.config_.buffer_width w else s.config_.margin_left,
              s.config_.margin_bottom + tlh + tlp + (n - j - 1) * s.config_.line_height)) := by
  induction texts with
  | nil =>
    intro i s t
    refine ⟨s, rfl, rfl, rfl, rfl, rfl, rfl, rfl, rfl, rfl, fun _ _ => ⟨rfl, rfl⟩, ?_⟩
    intro j h1 h2
    simp at h2
    omega
  | cons text texts ih =>
    intro i s t
    obtain ⟨sa, w, hcfg, hcen, htp, hact, hal, hstag, hstep⟩ :=
      prepare_loop_cons b n tlh tlp text texts i s t
    obtain ⟨s1, h1, h2, h3, h4, h5, h6, h7, h8, h9, h10, h11⟩ :=
      ih (i + 1) sa (get_internal_chars b.decodeUtf8 text t).2
    have hw_len : sa.staging_lines.line_widths_.length = s.staging_lines.line_widths_.length := by
      rw [hstag]; simp
    have hp_len : sa.staging_lines.line_positions_.length
        = s.staging_lines.line_positions_.length := by
      rw [hstag]; simp
    refine ⟨s1, hstep.trans h1, h2.trans hcfg, h3.trans hcen, h4.trans htp, h5.trans hact,
      h6.trans hal, ?_, h8.trans hw_len, h9.trans hp_len, ?_, ?_⟩
    · rw [h7, hstag]
    · intro j hj
      obtain ⟨a1, a2⟩ := h10 j (by omega)
      rw [a1, a2, hstag]
      have hne : i ≠ j := by omega
      simp [List.getElem?_set_ne hne]
    · intro j hij hjlt hjw hjp
      by_cases hji : j = i
      · subst hji
        obtain ⟨a1, a2⟩ := h10 j (by omega)
        refine ⟨w, ?_, ?_⟩
        · rw [a1, hstag]
          simp [List.getElem?_set_self, hjw]
        · rw [a2, hstag]
          simp [List.getElem?_set_self, hjp]
      · obtain ⟨w1, a1, a2⟩ := h11 j (by omega) (by simp at hjlt; omega) (by omega) (by omega)
        exact ⟨w1, a1, by rw [a2, hcen, hcfg]⟩

theorem length_resize {α : Type} (l : List α) (n : Nat) (d : α) : (resize l n d).length = n := by
  simp only [resize, List.length_append, List.length_take, List.length_replicate]
  omega

/-- The function `prepare` returns.  It keeps the configuration, the flags and the active
slot; the staging slot is marked prepared and holds, for each of the `n` lines, a width
and the position computed from it. -/
theorem prepare_spec (b : Backend) (s : Renderer) (text_lines : List (List Nat)) :
    ∃ s1, prepare b s text_lines = .ok s1 ∧
      s1.config_ = s.config_ ∧ s1.centered_ = s.centered_ ∧
      s1.title_prepared_ = s.title_prepared_ ∧
      s1.prepared_lines_active_ = s.prepared_lines_active_ ∧
      s1.active_lines = s.active_lines ∧
      s1.staging_lines.prepared_ = true ∧
      s1.staging_lines.line_widths_.length = text_lines.length ∧
      s1.staging_lines.line_positions_.length = text_lines.length ∧
      (∀ j, j < text_lines.length →
        ∃ w, s1.staging_lines.line_widths_[j]? = some w ∧
          s1.staging_lines.line_positions_[j]? = some
            (if s.centered_ then centered_x s.config_.buffer_width w else s.config_.margin_left,
              s.config_.margin_bottom +
                (if !s.title_prepared_ then 0 else s.config_.title_line_height) +
                (if !s.title_prepared_ then 0 else s.config_.title_line_padding) +
                ((text_lines.length : Int) - j - 1) * s.config_.line_height)) := by
  obtain ⟨s1, h1, h2, h3, h4, h5, h6, h7, h8, h9, -, h11⟩ :=
    prepare_loop_spec b (text_lines.length : Int)
      (if !s.title_prepared_ then 0 else s.config_.title_line_height)
      (if !s.title_prepared_ then 0 else s.config_.title_line_padding) text_lines 0
      (s.set_staging_lines
        { s.staging_lines with
          internal_lines_ := resize s.staging_lines.internal_lines_ text_lines.length []
          line_widths_ := resize s.staging_lines.line_widths_ text_lines.length 0
          line_positions_ := resize s.staging_lines.line_positions_ text_lines.length (0, 0) })
      TagTracker.fresh
  simp only [Renderer.config_set, Renderer.centered_set, Renderer.title_prepared_set,
    Renderer.prepared_lines_active_set, Renderer.active_lines_set, Renderer.staging_lines_set,
    length_resize] at h2 h3 h4 h5 h6 h7 h8 h9 h11
  refine ⟨s1.set_staging_lines { s1.staging_lines with prepared_ := true }, ?_, ?_, ?_, ?_, ?_,
    ?_, ?_, ?_, ?_, ?_⟩
  · simp only [prepare, bind, Except.bind, Renderer.title_prepared_set, Renderer.config_set, h1]
    rfl
  · rw [Renderer.config_set, h2]
  · rw [Renderer.centered_set, h3]
  · rw [Renderer.title_prepared_set, h4]
  · rw [Renderer.prepared_lines_active_set, h5]
  · rw [Renderer.active_lines_set, h6]
  · rw [Renderer.staging_lines_set]
  · rw [Renderer.staging_lines_set]; exact h8
  · rw [Renderer.staging_lines_set]; exact h9
  · intro j hj
    rw [Renderer.staging_lines_set]
    exact h11 j (Nat.zero_le j) (by omega) hj hj

/-- The function `prepare_title` on the empty string only clears `title_prepared_`. -/
theorem prepare_title_nil (b : Backend) (s : Renderer) :
    prepare_title b s [] = .ok { s with title_prepared_ := false } := rfl

/-- The function `prepare_title` on a string that is not empty returns; it sets
`title_prepared_`, lays the title out and leaves the configuration and both slots of
`prepared_lines_` as they are. -/
theorem prepare_title_spec (b : Backend) (s : Renderer) (line : List Nat) (h : line ≠ []) :
    ∃ s1, prepare_title b s line = .ok s1 ∧
      s1.title_prepared_ = true ∧ s1.config_ = s.config_ ∧ s1.centered_ = s.centered_ ∧
      s1.prepared_lines_active_ = s.prepared_lines_active_ ∧
      s1.prepared_lines_0 = s.prepared_lines_0 ∧ s1.prepared_lines_1 = s.prepared_lines_1 ∧
      s1.title_line_position_ =
        (if s.title_centered_ then centered_x s.config_.buffer_width s1.title_line_width_
          else s.config_.margin_left, s.config_.margin_bottom) := by
  obtain ⟨sg, hg, hframe, hw⟩ := prepare_glyphs_frame b
    (get_internal_chars b.decodeUtf8 line TagTracker.fresh).1 true
    { s with internal_title_line_ := (get_internal_chars b.decodeUtf8 line TagTracker.fresh).1 }
  have e1 : sg.config_ = s.config_ := by rw [hframe]
  have e2 : sg.centered_ = s.centered_ := by rw [hframe]
  have e3 : sg.prepared_lines_active_ = s.prepared_lines_active_ := by rw [hframe]
  have e4 : sg.prepared_lines_0 = s.prepared_lines_0 := by rw [hframe]
  have e5 : sg.prepared_lines_1 = s.prepared_lines_1 := by rw [hframe]
  have e6 : sg.title_centered_ = s.title_centered_ := by rw [hframe]
  have e7 : sg.internal_title_line_ = (get_internal_chars b.decodeUtf8 line TagTracker.fresh).1 := by
    rw [hframe]
  refine ⟨{ sg with
      title_line_width_ := (sg.glyph_map true).advance_sum
        (get_internal_chars b.decodeUtf8 line TagTracker.fresh).1
      title_line_position_ :=
        (if sg.title_centered_ then centered_x sg.config_.buffer_width
            ((sg.glyph_map true).advance_sum
              (get_internal_chars b.decodeUtf8 line TagTracker.fresh).1)
          else sg.config_.margin_left, sg.config_.margin_bottom)
      title_prepared_ := true }, ?_, ?_⟩
  · simp only [prepare_title, h, if_false, bind, Except.bind, hg, e7, hw]
    rfl
  · simp [e1, e2, e3, e4, e5, e6]

/-- C7: `prepare` returns, and after it the vertical position of line `i` of `n` in the
slot it wrote is `margin_bottom + reserved + (n-1-i) * line_height`, where `reserved` is
`title_line_height + title_line_padding` when `title_prepared_` is true and 0 when it is
false. -/
theorem prepare_vertical_positions (b : Backend) (s : Renderer) (text_lines : List (List Nat)) :
    ∃ s1, prepare b s text_lines = .ok s1 ∧
      s1.staging_lines.line_positions_.length = text_lines.length ∧
      ∀ i, i < text_lines.length →
        (s1.staging_lines.line_positions_[i]?).map Prod.snd = some
          (s.config_.margin_bottom +
            (if s.title_prepared_ then s.config_.title_line_height + s.config_.title_line_padding
              else 0) +
            ((text_lines.length : Int) - 1 - i) * s.config_.line_height) := by
  obtain ⟨s1, h1, -, -, -, -, -, -, -, h9, h10⟩ := prepare_spec b s text_lines
  refine ⟨s1, h1, h9, ?_⟩
  intro i hi
  obtain ⟨w, -, hp⟩ := h10 i hi
  rw [hp]
  cases s.title_prepared_
  · simp only [Option.map_some', Bool.not_false, if_true, Bool.false_eq_true, if_false,
      Option.some.injEq]
    ring
  · simp only [Option.map_some', Bool.not_true, Bool.false_eq_true, if_false, if_true,
      Option.some.injEq]
    ring

/-- For operands that are not negative, the two truncating divisions give the floor of the
exact difference, or one more when the width is odd and the buffer width even. -/
theorem centered_x_floor (bw w : Int) (hbw : 0 ≤ bw) (hw : 0 ≤ w) :
    centered_x bw w =
      ⌊(bw : ℚ) / 2 - (w : ℚ) / 2⌋ + (if bw % 2 = 0 ∧ w % 2 = 1 then 1 else 0) := by
  have h1 : bw.tdiv 2 = bw / 2 := Int.tdiv_eq_ediv hbw (by norm_num)
  have h2 : w.tdiv 2 = w / 2 := Int.tdiv_eq_ediv hw (by norm_num)
  rw [centered_x, h1, h2]
  have hbw2 : bw = 2 * (bw / 2) + bw % 2 := (Int.ediv_add_emod bw 2).symm
  have hw2 : w = 2 * (w / 2) + w % 2 := (Int.ediv_add_emod w 2).symm
  have hb : bw % 2 = 0 ∨ bw % 2 = 1 := by omega
  have hwm : w % 2 = 0 ∨ w % 2 = 1 := by omega
  have key : (bw : ℚ) / 2 - (w : ℚ) / 2 =
      ((bw / 2 - w / 2 : ℤ) : ℚ) + (((bw % 2 : ℤ) : ℚ) - ((w % 2 : ℤ) : ℚ)) / 2 := by
    have e1 : (bw : ℚ) = 2 * ((bw / 2 : ℤ) : ℚ) + ((bw % 2 : ℤ) : ℚ) := by exact_mod_cast hbw2
    have e2 : (w : ℚ) = 2 * ((w / 2 : ℤ) : ℚ) + ((w % 2 : ℤ) : ℚ) := by exact_mod_cast hw2
    rw [e1, e2]
    push_cast
    ring_nf
  rw [key]
  rcases hb with hb | hb <;> rcases hwm with hwm | hwm <;> rw [hb, hwm]
  · norm_num
  · have : ⌊((bw / 2 - w / 2 : ℤ) : ℚ) + (((0 : ℤ) : ℚ) - ((1 : ℤ) : ℚ)) / 2⌋
        = bw / 2 - w / 2 - 1 := by
      rw [Int.floor_eq_iff]
      push_cast
      constructor <;> linarith
    rw [this]
    norm_num
  · have : ⌊((bw / 2 - w / 2 : ℤ) : ℚ) + (((1 : ℤ) : ℚ) - ((0 : ℤ) : ℚ)) / 2⌋
        = bw / 2 - w / 2 := by
      rw [Int.floor_eq_iff]
      push_cast
      constructor <;> linarith
    rw [this]
    norm_num
  · norm_num

/-- C6, as the code has it: the centred position `prepare` gives a body line (when
`centered_`) and `prepare_title` gives the title (when `title_centered_`) is
`buffer_width/2 - width/2` with both divisions `int` divisions.  For operands that are
not negative this is `floor(bufferWidth/2 - width/2)` of the exact divisions, except for
an even buffer width and an odd width, where it is one more.  For 800 and 100 it is 350. -/
theorem centered_position :
    (∀ (b : Backend) (s : Renderer) (text_lines : List (List Nat)), s.centered_ = true →
      ∃ s1, prepare b s text_lines = .ok s1 ∧
        ∀ i, i < text_lines.length →
          ∃ w, s1.staging_lines.line_widths_[i]? = some w ∧
            (s1.staging_lines.line_positions_[i]?).map Prod.fst =
              some (s.config_.buffer_width.tdiv 2 - w.tdiv 2)) ∧
    (∀ (b : Backend) (s : Renderer) (line : List Nat), line ≠ [] → s.title_centered_ = true →
      ∃ s1, prepare_title b s line = .ok s1 ∧
        s1.title_line_position_.1 =
          s.config_.buffer_width.tdiv 2 - s1.title_line_width_.tdiv 2) ∧
    (∀ bw w : Int, 0 ≤ bw → 0 ≤ w →
      bw.tdiv 2 - w.tdiv 2 =
        ⌊(bw : ℚ) / 2 - (w : ℚ) / 2⌋ + (if bw % 2 = 0 ∧ w % 2 = 1 then 1 else 0)) ∧
    (800 : Int).tdiv 2 - (100 : Int).tdiv 2 = 350 ∧
    ⌊((800 : Int) : ℚ) / 2 - ((100 : Int) : ℚ) / 2⌋ = 350 := by
  refine ⟨?_, ?_, ?_, by decide, ?_⟩
  · intro b s text_lines hc
    obtain ⟨s1, h1, -, -, -, -, -, -, -, -, h10⟩ := prepare_spec b s text_lines
    refine ⟨s1, h1, ?_⟩
    intro i hi
    obtain ⟨w, hw, hp⟩ := h10 i hi
    refine ⟨w, hw, ?_⟩
    rw [hp, hc]
    rfl
  · intro b s line hl hc
    obtain ⟨s1, h1, -, -, -, -, -, -, h8⟩ := prepare_title_spec b s line hl
    refine ⟨s1, h1, ?_⟩
    rw [h8, hc]
    rfl
  · intro bw w hbw hw
    exact centered_x_floor bw w hbw hw
  · rw [Int.floor_eq_iff]
    norm_num

/-- C6 as stated fails: for a buffer width of 800 and a measured width of 101 the code
computes 400 - 50 = 350, while `floor(800/2 - 101/2)` is 349. -/
theorem centered_position_counterexample :
    centered_x 800 101 = 350 ∧ ⌊((800 : Int) : ℚ) / 2 - ((101 : Int) : ℚ) / 2⌋ = 349 := by
  refine ⟨by decide, ?_⟩
  rw [Int.floor_eq_iff]
  norm_num

/-- C8, as the code has it: a `prepare_title` call that switches `title_prepared_` leaves
both slots of `prepared_lines_` as they are, so the positions of the prepared body lines do
not move; a later `prepare` with the same text puts every line
`title_line_height + title_line_padding` higher than before when the title was switched
on, and as much lower when it was switched off. -/
theorem title_toggle_repositions :
    (∀ (b : Backend) (s : Renderer) (text_lines : List (List Nat)) (title : List Nat),
      s.title_prepared_ = false → title ≠ [] →
      ∃ s1 s2 s3, prepare b s text_lines = .ok s1 ∧ prepare_title b s1 title = .ok s2 ∧
        prepare b s2 text_lines = .ok s3 ∧ s2.title_prepared_ = true ∧
        s2.prepared_lines_0 = s1.prepared_lines_0 ∧
        s2.prepared_lines_1 = s1.prepared_lines_1 ∧
        ∀ i, i < text_lines.length →
          ∃ y, (s1.staging_lines.line_positions_[i]?).map Prod.snd = some y ∧
            (s2.staging_lines.line_positions_[i]?).map Prod.snd = some y ∧
            (s3.staging_lines.line_positions_[i]?).map Prod.snd =
              some (y + (s.config_.title_line_height + s.config_.title_line_padding))) ∧
    (∀ (b : Backend) (s : Renderer) (text_lines : List (List Nat)),
      s.title_prepared_ = true →
      ∃ s1 s2 s3, prepare b s text_lines = .ok s1 ∧ prepare_title b s1 [] = .ok s2 ∧
        prepare b s2 text_lines = .ok s3 ∧ s2.title_prepared_ = false ∧
        s2.prepared_lines_0 = s1.prepared_lines_0 ∧
        s2.prepared_lines_1 = s1.prepared_lines_1 ∧
        ∀ i, i < text_lines.length →
          ∃ y, (s1.staging_lines.line_positions_[i]?).map Prod.snd = some y ∧
            (s2.staging_lines.line_positions_[i]?).map Prod.snd = some y ∧
            (s3.staging_lines.line_positions_[i]?).map Prod.snd =
              some (y - (s.config_.title_line_height + s.config_.title_line_padding))) := by
  constructor
  · intro b s text_lines title hs ht
    obtain ⟨s1, h1, c1, -, t1, a1, -, -, -, -, p1⟩ := prepare_spec b s text_lines
    obtain ⟨s2, h2, t2, c2, -, a2, l0, l1, -⟩ := prepare_title_spec b s1 title ht
    obtain ⟨s3, h3, -, -, -, -, -, -, -, -, p3⟩ := prepare_spec b s2 text_lines
    have hst : s2.staging_lines = s1.staging_lines := by
      simp only [Renderer.staging_lines, a2, l0, l1]
    refine ⟨s1, s2, s3, h1, h2, h3, t2, l0, l1, ?_⟩
    intro i hi
    obtain ⟨w1, -, q1⟩ := p1 i hi
    obtain ⟨w3, -, q3⟩ := p3 i hi
    have e1 : (s1.staging_lines.line_positions_[i]?).map Prod.snd = some
        (s.config_.margin_bottom + ((text_lines.length : Int) - i - 1) * s.config_.line_height) := by
      rw [q1, hs]
      simp only [Option.map_some', Bool.not_false, if_true, Option.some.injEq]
      ring
    refine ⟨_, e1, ?_, ?_⟩
    · rw [hst, e1]
    · rw [q3, t2, c2, c1]
      simp only [Option.map_some', Bool.not_true, Bool.false_eq_true, if_false,
        Option.some.injEq]
      ring
  · intro b s text_lines hs
    obtain ⟨s1, h1, c1, -, t1, a1, -, -, -, -, p1⟩ := prepare_spec b s text_lines
    obtain ⟨s3, h3, -, -, -, -, -, -, -, -, p3⟩ :=
      prepare_spec b { s1 with title_prepared_ := false } text_lines
    have hst : ({ s1 with title_prepared_ := false } : Renderer).staging_lines
        = s1.staging_lines := rfl
    refine ⟨s1, { s1 with title_prepared_ := false }, s3, h1, prepare_title_nil b s1, h3, rfl,
      rfl, rfl, ?_⟩
    intro i hi
    obtain ⟨w1, -, q1⟩ := p1 i hi
    obtain ⟨w3, -, q3⟩ := p3 i hi
    have e1 : (s1.staging_lines.line_positions_[i]?).map Prod.snd = some
        (s.config_.margin_bottom + s.config_.title_line_height + s.config_.title_line_padding +
          ((text_lines.length : Int) - i - 1) * s.config_.line_height) := by
      rw [q1, hs]
      simp only [Option.map_some', Bool.not_true, Bool.false_eq_true, if_false]
    refine ⟨_, e1, ?_, ?_⟩
    · rw [hst, e1]
    · rw [q3]
      simp only [c1, Option.map_some', Bool.not_false, if_true, Option.some.injEq]
      ring

/-- C8 as stated fails: on the sample renderer the body line `A` is prepared at the
vertical position 14; `prepare_title` with the title `T` switches `title_prepared_` from
false to true and the line stays at 14 in the slot `prepare` wrote (the slot `draw` reads
is unchanged as well), although `title_line_height + title_line_padding` is 45. -/
theorem title_toggle_counterexample :
    ∃ s1 s2, prepare sampleBackend sampleRenderer [[65]] = .ok s1 ∧
      prepare_title sampleBackend s1 [84] = .ok s2 ∧
      s1.title_prepared_ = false ∧ s2.title_prepared_ = true ∧
      (s1.staging_lines.line_positions_[0]?).map Prod.snd = some 14 ∧
      (s2.staging_lines.line_positions_[0]?).map Prod.snd = some 14 ∧
      s2.active_lines = s1.active_lines ∧
      s1.config_.title_line_height + s1.config_.title_line_padding = 45 := by
  obtain ⟨s1, h1, c1, -, t1, -, -, -, -, -, p1⟩ := prepare_spec sampleBackend sampleRenderer [[65]]
  obtain ⟨s2, h2, t2, -, -, a2, l0, l1, -⟩ :=
    prepare_title_spec sampleBackend s1 [84] (by decide)
  have hst : s2.staging_lines = s1.staging_lines := by
    simp only [Renderer.staging_lines, a2, l0, l1]
  have hac : s2.active_lines = s1.active_lines := by
    simp only [Renderer.active_lines, a2, l0, l1]
  have ht0 : sampleRenderer.title_prepared_ = false := rfl
  obtain ⟨w, -, q⟩ := p1 0 (by decide)
  have e1 : (s1.staging_lines.line_positions_[0]?).map Prod.snd = some 14 := by
    rw [q, ht0, sampleRenderer_config]
    simp
  refine ⟨s1, s2, h1, h2, t1.trans ht0, t2, e1, ?_, hac, ?_⟩
  · rw [hst, e1]
  · rw [c1, sampleRenderer_config]
    rfl

/-! ### set_rect -/

theorem to_uint32_of_lt (n : ℕ) (h : n < 2 ^ 32) : to_uint32 (n : ℤ) = n := by
  unfold to_uint32
  have : ((n : ℤ) % 2 ^ 32) = n := Int.emod_eq_of_lt (by omega) (by exact_mod_cast h)
  rw [this]
  simp

theorem to_int32_of_lt (n : ℕ) (h : n < 2 ^ 31) : to_int32 n = n := by
  unfold to_int32
  rw [if_pos h]

/-- The ratio `(float) n / n` is 1 for a display dimension `n`. -/
theorem f32_ratio_self (n : ℕ) (h0 : 0 < n) (h : n < 2 ^ 24) :
    f32 (f32 (n : ℚ) / f32 (n : ℚ)) = 1 := by
  have e : f32 (n : ℚ) = n := by
    have := f32_intCast (n : ℤ) (by rw [abs_of_nonneg (by omega)]; exact_mod_cast h)
    simpa using this
  have hne : (n : ℚ) ≠ 0 := by exact_mod_cast (by omega : n ≠ 0)
  rw [e, div_self hne]
  have := f32_intCast 1 (by norm_num)
  simpa using this

/-- At the ratio 1 a field goes through `field * 1.0f + 0.5f` and truncation: it keeps its
value when it is not negative and gains one when it is negative. -/
theorem scale_field_one (v : ℤ) (hv : |v| < 2 ^ 22) :
    scale_field v 1 = (if 0 ≤ v then v else v + 1) := by
  rw [scale_field, f32_intCast v (lt_trans hv (by norm_num)), mul_one,
    f32_intCast v (lt_trans hv (by norm_num)), f32_intCast_add_half v hv,
    float_to_int_add_half]

/-- The function `set_rect` at the rectangle of the whole display: both ratios are 1, the
buffer position and width are those of the baseline, and each scaled field is the
corresponding baseline field taken through `scale_field` at the ratio 1. -/
theorem set_rect_fullscreen_config (s : Renderer)
    (hw0 : 0 < s.screen_width_) (hw : s.screen_width_ < 2 ^ 22)
    (hh0 : 0 < s.screen_height_) (hh : s.screen_height_ < 2 ^ 22)
    (hy0 : 0 ≤ s.config_fullscreen_.buffer_y)
    (hy : s.config_fullscreen_.buffer_y ≤ s.screen_height_) :
    (set_rect s 0 0 s.screen_width_ s.screen_height_).config_ =
      { buffer_x := 0
        buffer_y := s.config_fullscreen_.buffer_y
        buffer_width := s.screen_width_
        buffer_height := scale_field s.config_fullscreen_.buffer_height 1
        line_height := scale_field s.config_fullscreen_.line_height 1
        box_offset := scale_field s.config_fullscreen_.box_offset 1
        box_h_padding := scale_field s.config_fullscreen_.box_h_padding 1
        margin_left := scale_field s.config_fullscreen_.margin_left 1
        margin_bottom := scale_field s.config_fullscreen_.margin_bottom 1
        title_line_height := scale_field s.config_fullscreen_.title_line_height 1
        title_line_padding := scale_field s.config_fullscreen_.title_line_padding 1
        title_box_offset := scale_field s.config_fullscreen_.title_box_offset 1
        title_box_h_padding := scale_field s.config_fullscreen_.title_box_h_padding 1 } := by
  have ew : to_uint32 ((s.screen_width_ : ℤ) - 0) = s.screen_width_ := by
    rw [sub_zero]; exact to_uint32_of_lt _ (by omega)
  have eh : to_uint32 ((s.screen_height_ : ℤ) - 0) = s.screen_height_ := by
    rw [sub_zero]; exact to_uint32_of_lt _ (by omega)
  obtain ⟨d, hd⟩ : ∃ d : ℕ, (s.screen_height_ : ℤ) - s.config_fullscreen_.buffer_y = d :=
    ⟨((s.screen_height_ : ℤ) - s.config_fullscreen_.buffer_y).toNat, by omega⟩
  have hdlt : d < 2 ^ 24 := by omega
  have hw24 : s.screen_width_ < 2 ^ 24 := by omega
  have hh24 : s.screen_height_ < 2 ^ 24 := by omega
  have ed : to_uint32 ((s.screen_height_ : ℤ) - s.config_fullscreen_.buffer_y) = d := by
    rw [hd]; exact to_uint32_of_lt _ (by omega)
  have fh : f32 ((s.screen_height_ : ℤ) : ℚ) = (s.screen_height_ : ℤ) :=
    f32_intCast _ (by rw [abs_of_nonneg (by omega)]; exact_mod_cast hh24)
  have fd : f32 (d : ℚ) = d := by
    have := f32_intCast (d : ℤ) (by rw [abs_of_nonneg (by omega)]; exact_mod_cast hdlt)
    simpa using this
  have hby : ((s.screen_height_ : ℤ) : ℚ) - (d : ℚ) = (s.config_fullscreen_.buffer_y : ℚ) := by
    have : ((d : ℤ) : ℚ) = ((s.screen_height_ : ℤ) : ℚ) - (s.config_fullscreen_.buffer_y : ℚ) := by
      rw [← hd]; push_cast; ring
    rw [Int.cast_natCast] at this
    rw [this]; ring
  have fy : f32 (s.config_fullscreen_.buffer_y : ℚ) = s.config_fullscreen_.buffer_y :=
    f32_intCast _ (by rw [abs_of_nonneg hy0]; omega)
  have fy2 : f32 ((s.config_fullscreen_.buffer_y : ℚ) + 1 / 2)
      = (s.config_fullscreen_.buffer_y : ℚ) + 1 / 2 :=
    f32_intCast_add_half _ (by rw [abs_of_nonneg hy0]; omega)
  simp only [set_rect, ew, eh, f32_ratio_self _ hw0 hw24, f32_ratio_self _ hh0 hh24, ed, fd, mul_one,
    to_int32_of_lt _ (by omega : s.screen_width_ < 2 ^ 31)]
  rw [fh, hby, fy, fy2, float_to_int_add_half, if_pos hy0]

/-- C4 on the sample renderer: the constructor produces the baseline with
`box_offset = title_box_offset = -6`, and `set_rect` with the rectangle of the whole display
(0, 0, 1920, 1080) leaves `config_` with `box_offset = title_box_offset = -5`; every other
field equals its baseline. -/
theorem set_rect_fullscreen_sample :
    sampleRenderer.config_fullscreen_ =
      { buffer_width := 1920, buffer_height := 152, buffer_y := 868, buffer_x := 0,
        line_height := 30, box_offset := -6, box_h_padding := 6,
        margin_left := 120, margin_bottom := 14,
        title_line_height := 30, title_line_padding := 15,
        title_box_offset := -6, title_box_h_padding := 6 } ∧
    (set_rect sampleRenderer 0 0 1920 1080).config_ =
      { buffer_width := 1920, buffer_height := 152, buffer_y := 868, buffer_x := 0,
        line_height := 30, box_offset := -5, box_h_padding := 6,
        margin_left := 120, margin_bottom := 14,
        title_line_height := 30, title_line_padding := 15,
        title_box_offset := -5, title_box_h_padding := 6 } := by
  have hfull : sampleRenderer.config_fullscreen_ = sampleRenderer.config_ := rfl
  refine ⟨hfull.trans sampleRenderer_config, ?_⟩
  have hsw : sampleRenderer.screen_width_ = 1920 := rfl
  have hsh : sampleRenderer.screen_height_ = 1080 := rfl
  have h := set_rect_fullscreen_config sampleRenderer (by rw [hsw]; norm_num)
    (by rw [hsw]; norm_num) (by rw [hsh]; norm_num) (by rw [hsh]; norm_num)
    (by rw [hfull, sampleRenderer_config]; norm_num)
    (by rw [hfull, sampleRenderer_config, hsh]; norm_num)
  rw [hsw, hsh] at h
  have h' : (set_rect sampleRenderer 0 0 1920 1080).config_ =
      (set_rect sampleRenderer 0 0 ((1920 : ℕ) : ℤ) ((1080 : ℕ) : ℤ)).config_ := rfl
  rw [h', h, hfull, sampleRenderer_config]
  simp only [scale_field_one (152 : ℤ) (by norm_num), scale_field_one (30 : ℤ) (by norm_num),
    scale_field_one (-6 : ℤ) (by norm_num), scale_field_one (6 : ℤ) (by norm_num),
    scale_field_one (120 : ℤ) (by norm_num), scale_field_one (14 : ℤ) (by norm_num),
    scale_field_one (15 : ℤ) (by norm_num)]
  decide
/-- Rounding to an integer moves a number by at most a half. -/
theorem roundHalfEven_err (x : ℚ) : |(roundHalfEven x : ℚ) - x| ≤ 1 / 2 := by
  unfold roundHalfEven
  have h1 := Int.floor_le x
  have h2 := Int.lt_floor_add_one x
  rw [abs_le]
  by_cases ha : x - ⌊x⌋ < 1 / 2
  · simp only [ha, if_true]
    constructor <;> linarith
  · by_cases hb : 1 / 2 < x - ⌊x⌋
    · simp only [ha, hb, if_true, if_false]
      push_cast
      constructor <;> linarith
    · simp only [ha, hb, if_false]
      have hc : x - ⌊x⌋ = 1 / 2 := le_antisymm (not_lt.mp hb) (not_lt.mp ha)
      split
      · constructor <;> linarith
      · push_cast
        constructor <;> linarith

/-- The relative error of rounding to `float`: at most `2^-24`, for a number in the normal
range. -/
theorem f32_err (q : ℚ) (hq : (2 : ℚ) ^ (-126 : ℤ) ≤ |q|) :
    |f32 q - q| ≤ |q| / 2 ^ 24 := by
  have hpos : 0 < |q| := lt_of_lt_of_le (zpow_pos (by norm_num) _) hq
  have hq0 : q ≠ 0 := abs_pos.mp hpos
  have hlog : -126 ≤ Int.log 2 |q| :=
    (Int.zpow_le_iff_le_log (b := 2) (by norm_num) hpos (x := -126)).mp (by exact_mod_cast hq)
  have he : f32Exponent q = Int.log 2 |q| := max_eq_left hlog
  have hle : (2 : ℚ) ^ (Int.log 2 |q|) ≤ |q| := by
    have := Int.zpow_log_le_self (b := 2) (by norm_num) hpos
    exact_mod_cast this
  rw [f32, if_neg hq0, he]
  set e := Int.log 2 |q| with he_def
  have hu : (0 : ℚ) < 2 ^ (e - 23) := zpow_pos (by norm_num) _
  have hsplit : (2 : ℚ) ^ e = 2 ^ (e - 23) * 2 ^ 23 := by
    have : e = (e - 23) + 23 := by ring
    conv_lhs => rw [this]
    rw [zpow_add₀ (by norm_num : (2 : ℚ) ≠ 0)]
    norm_num
  have hr := roundHalfEven_err (q / 2 ^ (e - 23))
  have key : (roundHalfEven (q / 2 ^ (e - 23)) : ℚ) * 2 ^ (e - 23) - q =
      ((roundHalfEven (q / 2 ^ (e - 23)) : ℚ) - q / 2 ^ (e - 23)) * 2 ^ (e - 23) := by
    field_simp
  rw [key, abs_mul, abs_of_pos hu]
  calc |(roundHalfEven (q / 2 ^ (e - 23)) : ℚ) - q / 2 ^ (e - 23)| * 2 ^ (e - 23)
      ≤ 1 / 2 * 2 ^ (e - 23) := mul_le_mul_of_nonneg_right hr (le_of_lt hu)
    _ = 2 ^ e / 2 ^ 24 := by rw [hsplit]; norm_num; ring
    _ ≤ |q| / 2 ^ 24 := by
        apply div_le_div_of_nonneg_right hle
        norm_num

/-- Rounding to `float` keeps a positive number of the normal range within the relative
error `2^-24`. -/
theorem f32_bounds (q : ℚ) (hq : (2 : ℚ) ^ (-126 : ℤ) ≤ q) :
    q * (1 - 1 / 2 ^ 24) ≤ f32 q ∧ f32 q ≤ q * (1 + 1 / 2 ^ 24) := by
  have hpos : 0 < q := lt_of_lt_of_le (zpow_pos (by norm_num) _) hq
  have h := f32_err q (by rwa [abs_of_pos hpos])
  rw [abs_of_pos hpos, abs_le] at h
  constructor <;> linarith [h.1, h.2]

theorem f32_zero : f32 0 = 0 := by simp [f32]

theorem f32_natCast (n : ℕ) (h : n < 2 ^ 24) : f32 (n : ℚ) = n := by
  have := f32_intCast (n : ℤ) (by rw [abs_of_nonneg (by omega)]; exact_mod_cast h)
  simpa using this

theorem scale_field_zero (v : ℤ) (m : ℚ) (h : (v : ℚ) * m = 0) (hv : |v| < 2 ^ 24) :
    scale_field v m = 0 := by
  rw [scale_field, f32_intCast v hv, h, f32_zero]
  have e1 := f32_intCast_add_half 0 (by norm_num)
  have e2 := float_to_int_add_half 0
  simp only [Int.cast_zero] at e1 e2
  rw [e1, e2]
  simp

/-- A field that is not negative, scaled by the `float` ratio of two dimensions, is the
exact product rounded to the nearest integer up to the rounding of the three `float`
operations. -/
theorem scale_field_near (v : ℤ) (h sh : ℕ) (hv0 : 0 ≤ v) (hv : v < 2 ^ 24) (hh : h < 2 ^ 24)
    (hs0 : 0 < sh) (hs : sh < 2 ^ 24) :
    |((scale_field v (f32 (f32 (h : ℚ) / f32 (sh : ℚ))) : ℤ) : ℚ) - (v : ℚ) * ((h : ℚ) / (sh : ℚ))|
      ≤ 1 / 2 + (4 * ((v : ℚ) * ((h : ℚ) / (sh : ℚ))) + 1 / 2) / 2 ^ 24 := by
  have hvabs : |v| < 2 ^ 24 := by rw [abs_of_nonneg hv0]; exact hv
  rw [f32_natCast h hh, f32_natCast sh hs]
  have hshpos : (0 : ℚ) < sh := by exact_mod_cast hs0
  have hvq : (0 : ℚ) ≤ v := by exact_mod_cast hv0
  by_cases hz : v = 0 ∨ h = 0
  · have hX : (v : ℚ) * ((h : ℚ) / (sh : ℚ)) = 0 := by
      rcases hz with hz | hz <;> simp [hz]
    have hm : (v : ℚ) * f32 ((h : ℚ) / (sh : ℚ)) = 0 := by
      rcases hz with hz | hz
      · simp [hz]
      · simp [hz, f32_zero]
    rw [scale_field_zero v _ hm hvabs, hX]
    norm_num
  · push_neg at hz
    obtain ⟨hv1, hh1⟩ := hz
    have hv1' : (1 : ℚ) ≤ v := by exact_mod_cast (by omega : (1 : ℤ) ≤ v)
    have hh1' : (1 : ℚ) ≤ h := by exact_mod_cast (by omega : 1 ≤ h)
    have hslt : (sh : ℚ) < 2 ^ 24 := by exact_mod_cast hs
    set r : ℚ := (h : ℚ) / (sh : ℚ) with hr
    have hr_lo : (1 : ℚ) / 2 ^ 24 ≤ r := by
      rw [hr, div_le_div_iff₀ (by norm_num) hshpos]
      nlinarith
    have hsmall : (2 : ℚ) ^ (-126 : ℤ) ≤ 1 / 2 ^ 25 := by
      rw [zpow_neg, ← one_div]
      apply one_div_le_one_div_of_le (by norm_num)
      have : (2 : ℚ) ^ (126 : ℤ) = 2 ^ (126 : ℕ) := by norm_cast
      rw [this]
      norm_num
    obtain ⟨m_lo, m_hi⟩ := f32_bounds r (le_trans hsmall (le_trans (by norm_num) hr_lo))
    set m := f32 r with hm
    have hm_pos : (1 : ℚ) / 2 ^ 25 ≤ m := by
      have : (1 : ℚ) / 2 ^ 24 * (1 - 1 / 2 ^ 24) ≤ r * (1 - 1 / 2 ^ 24) :=
        mul_le_mul_of_nonneg_right hr_lo (by norm_num)
      have h2 : (1 : ℚ) / 2 ^ 25 ≤ 1 / 2 ^ 24 * (1 - 1 / 2 ^ 24) := by norm_num
      linarith
    have hX'_lo : (1 : ℚ) / 2 ^ 25 ≤ (v : ℚ) * m := by
      have : (1 : ℚ) * m ≤ (v : ℚ) * m :=
        mul_le_mul_of_nonneg_right hv1' (le_trans (by norm_num) hm_pos)
      linarith
    obtain ⟨p_lo, p_hi⟩ := f32_bounds ((v : ℚ) * m) (le_trans hsmall hX'_lo)
    set p := f32 ((v : ℚ) * m) with hp
    have hp0 : 0 ≤ p := by
      have : 0 ≤ (v : ℚ) * m * (1 - 1 / 2 ^ 24) :=
        mul_nonneg (le_trans (by norm_num) hX'_lo) (by norm_num)
      linarith
    obtain ⟨s_lo, s_hi⟩ := f32_bounds (p + 1 / 2)
      (le_trans hsmall (by have : (1 : ℚ) / 2 ^ 25 ≤ 1 / 2 := by norm_num
                           linarith))
    set s := f32 (p + 1 / 2) with hs_def
    have hs0' : 0 ≤ s := by
      have : 0 ≤ (p + 1 / 2) * (1 - 1 / 2 ^ 24) := mul_nonneg (by linarith) (by norm_num)
      linarith
    have hfield : scale_field v m = ⌊s⌋ := by
      rw [scale_field, f32_intCast v hvabs, ← hp, ← hs_def, float_to_int, if_pos hs0']
    rw [hfield]
    have f1 := Int.floor_le s
    have f2 := Int.lt_floor_add_one s
    have hr0 : 0 ≤ r := le_trans (by norm_num) hr_lo
    have hX0 : 0 ≤ (v : ℚ) * r := mul_nonneg hvq hr0
    -- upper and lower bounds on the product `v * m`
    have x_hi : (v : ℚ) * m ≤ (v : ℚ) * r * (1 + 1 / 2 ^ 24) := by
      have := mul_le_mul_of_nonneg_left m_hi hvq
      linarith
    have x_lo : (v : ℚ) * r * (1 - 1 / 2 ^ 24) ≤ (v : ℚ) * m := by
      have := mul_le_mul_of_nonneg_left m_lo hvq
      linarith
    have p_hi' : p ≤ (v : ℚ) * r * (1 + 1 / 2 ^ 24) * (1 + 1 / 2 ^ 24) := by
      have := mul_le_mul_of_nonneg_right x_hi (by norm_num : (0 : ℚ) ≤ 1 + 1 / 2 ^ 24)
      linarith
    have p_lo' : (v : ℚ) * r * (1 - 1 / 2 ^ 24) * (1 - 1 / 2 ^ 24) ≤ p := by
      have := mul_le_mul_of_nonneg_right x_lo (by norm_num : (0 : ℚ) ≤ 1 - 1 / 2 ^ 24)
      linarith
    have s_hi' : s ≤ ((v : ℚ) * r * (1 + 1 / 2 ^ 24) * (1 + 1 / 2 ^ 24) + 1 / 2)
        * (1 + 1 / 2 ^ 24) := by
      have := mul_le_mul_of_nonneg_right (by linarith : p + 1 / 2 ≤
        (v : ℚ) * r * (1 + 1 / 2 ^ 24) * (1 + 1 / 2 ^ 24) + 1 / 2)
        (by norm_num : (0 : ℚ) ≤ 1 + 1 / 2 ^ 24)
      linarith
    have s_lo' : ((v : ℚ) * r * (1 - 1 / 2 ^ 24) * (1 - 1 / 2 ^ 24) + 1 / 2)
        * (1 - 1 / 2 ^ 24) ≤ s := by
      have := mul_le_mul_of_nonneg_right (by linarith :
        (v : ℚ) * r * (1 - 1 / 2 ^ 24) * (1 - 1 / 2 ^ 24) + 1 / 2 ≤ p + 1 / 2)
        (by norm_num : (0 : ℚ) ≤ 1 - 1 / 2 ^ 24)
      linarith
    clear_value s p m
    generalize (v : ℚ) * r = X at hX0 s_hi' s_lo' ⊢
    have c_hi : X * ((1 + 1 / 2 ^ 24) * (1 + 1 / 2 ^ 24) * (1 + 1 / 2 ^ 24) - 1 - 4 / 2 ^ 24) ≤ 0 :=
      mul_nonpos_of_nonneg_of_nonpos hX0 (by norm_num)
    have c_lo : 0 ≤ X * ((1 - 1 / 2 ^ 24) * (1 - 1 / 2 ^ 24) * (1 - 1 / 2 ^ 24) - 1 + 4 / 2 ^ 24) :=
      mul_nonneg hX0 (by norm_num)
    rw [abs_le]
    constructor
    · linarith
    · linarith
/-- In the range `8 * v * h + sh < 2^24` the rounding of the `float` operations is too
small to matter: the scaled field is a nearest integer of the exact product. -/
theorem scale_field_nearest (v : ℤ) (h sh : ℕ) (hv0 : 0 ≤ v) (hv : v < 2 ^ 24)
    (hh : h < 2 ^ 24) (hs0 : 0 < sh) (hs : sh < 2 ^ 24)
    (hrange : 8 * v * (h : ℤ) + (sh : ℤ) < 2 ^ 24) :
    |((scale_field v (f32 (f32 (h : ℚ) / f32 (sh : ℚ))) : ℤ) : ℚ) - (v : ℚ) * ((h : ℚ) / (sh : ℚ))|
      ≤ 1 / 2 := by
  have hnear := scale_field_near v h sh hv0 hv hh hs0 hs
  set f : ℤ := scale_field v (f32 (f32 (h : ℚ) / f32 (sh : ℚ))) with hf
  have hshpos : (0 : ℚ) < sh := by exact_mod_cast hs0
  have hD : (f : ℚ) - (v : ℚ) * ((h : ℚ) / (sh : ℚ)) = ((f * sh - v * h : ℤ) : ℚ) / sh := by
    push_cast
    field_simp
  rw [hD] at hnear ⊢
  rw [abs_div, abs_of_pos hshpos] at hnear ⊢
  rw [div_le_iff₀ hshpos] at hnear ⊢
  have hr : ((8 * v * (h : ℤ) + (sh : ℤ) : ℤ) : ℚ) < 2 ^ 24 := by exact_mod_cast hrange
  push_cast at hr
  have hx : (v : ℚ) * ((h : ℚ) / (sh : ℚ)) * sh = (v : ℚ) * h := by field_simp
  have hlt : 2 * |((f * sh - v * h : ℤ) : ℚ)| < (sh : ℚ) + 1 := by
    have e : (1 / 2 + (4 * ((v : ℚ) * ((h : ℚ) / (sh : ℚ))) + 1 / 2) / 2 ^ 24) * (sh : ℚ)
        = (sh : ℚ) / 2 + (8 * (v : ℚ) * h + sh) / 2 ^ 25 := by
      have : (4 * ((v : ℚ) * ((h : ℚ) / (sh : ℚ))) + 1 / 2) * sh = 4 * ((v : ℚ) * h) + sh / 2 := by
        rw [add_mul, mul_assoc 4, hx]; ring
      calc (1 / 2 + (4 * ((v : ℚ) * ((h : ℚ) / (sh : ℚ))) + 1 / 2) / 2 ^ 24) * (sh : ℚ)
          = (sh : ℚ) / 2 + (4 * ((v : ℚ) * ((h : ℚ) / (sh : ℚ))) + 1 / 2) * sh / 2 ^ 24 := by ring
        _ = (sh : ℚ) / 2 + (8 * (v : ℚ) * h + sh) / 2 ^ 25 := by rw [this]; ring
    rw [e] at hnear
    have : (8 * (v : ℚ) * h + sh) / 2 ^ 25 < 1 / 2 := by
      rw [div_lt_iff₀ (by norm_num)]
      linarith
    linarith
  have hint : 2 * |f * sh - v * h| < (sh : ℤ) + 1 := by
    have : ((2 * |f * sh - v * h| : ℤ) : ℚ) < (((sh : ℤ) + 1 : ℤ) : ℚ) := by
      push_cast at hlt ⊢
      exact hlt
    exact_mod_cast this
  have hle : 2 * |f * sh - v * h| ≤ (sh : ℤ) := by omega
  have : ((2 * |f * sh - v * h| : ℤ) : ℚ) ≤ ((sh : ℤ) : ℚ) := by exact_mod_cast hle
  push_cast at this ⊢
  linarith

/-- The ratio `set_rect` computes for a rectangle side `d` and a display dimension `n`
gives each field that is not negative its scaled value, rounded. -/
theorem scale_field_rounded (v d : ℤ) (n : ℕ) (hd0 : 0 ≤ d) (hd : d < 2 ^ 24) (hn0 : 0 < n)
    (hn : n < 2 ^ 24) (hv0 : 0 ≤ v) (hv : v < 2 ^ 24) :
    RoundedScale v ((d : ℚ) / (n : ℚ))
      (scale_field v (f32 (f32 ((to_uint32 d : ℕ) : ℚ) / f32 (n : ℚ)))) ∧
    (8 * v * d + (n : ℤ) < 2 ^ 24 →
      NearestInteger ((v : ℚ) * ((d : ℚ) / (n : ℚ)))
        (scale_field v (f32 (f32 ((to_uint32 d : ℕ) : ℚ) / f32 (n : ℚ))))) := by
  obtain ⟨k, hk⟩ : ∃ k : ℕ, d = k := ⟨d.toNat, by omega⟩
  subst hk
  have hk24 : k < 2 ^ 24 := by exact_mod_cast hd
  rw [to_uint32_of_lt k (by omega)]
  constructor
  · have := scale_field_near v k n hv0 hv hk24 hn0 hn
    simpa [RoundedScale] using this
  · intro hrange
    have := scale_field_nearest v k n hv0 hv hk24 hn0 hn hrange
    simpa [NearestInteger] using this

/-- C5, as the code has it: after `set_rect(x1, y1, x2, y2)` the fields `buffer_height`,
`line_height`, `box_offset`, `margin_bottom`, `title_line_height`, `title_line_padding`,
`title_box_offset` and also `box_h_padding` and `title_box_h_padding` are the baseline
fields times the height ratio `(y2-y1)/screen_height`, and `margin_left` is the baseline
field times the width ratio `(x2-x1)/screen_width`, rounded: for a baseline value that is
not negative the field is within a half plus the single-precision rounding of the exact
product, and it is a nearest integer of the exact product when
`8 * baseline * side + dimension < 2^24`. -/
theorem set_rect_scaled_fields (s : Renderer) (x1 y1 x2 y2 : Int)
    (hsw0 : 0 < s.screen_width_) (hsw : s.screen_width_ < 2 ^ 24)
    (hsh0 : 0 < s.screen_height_) (hsh : s.screen_height_ < 2 ^ 24)
    (hw0 : 0 ≤ x2 - x1) (hw : x2 - x1 < 2 ^ 24) (hh0 : 0 ≤ y2 - y1) (hh : y2 - y1 < 2 ^ 24) :
    (∀ field ∈ heightScaledFields,
      0 ≤ field s.config_fullscreen_ → field s.config_fullscreen_ < 2 ^ 24 →
      RoundedScale (field s.config_fullscreen_)
        (((y2 - y1 : ℤ) : ℚ) / (s.screen_height_ : ℚ))
        (field (set_rect s x1 y1 x2 y2).config_) ∧
      (8 * field s.config_fullscreen_ * (y2 - y1) + (s.screen_height_ : ℤ) < 2 ^ 24 →
        NearestInteger
          ((field s.config_fullscreen_ : ℚ) * (((y2 - y1 : ℤ) : ℚ) / (s.screen_height_ : ℚ)))
          (field (set_rect s x1 y1 x2 y2).config_))) ∧
    (0 ≤ s.config_fullscreen_.margin_left → s.config_fullscreen_.margin_left < 2 ^ 24 →
      RoundedScale s.config_fullscreen_.margin_left
        (((x2 - x1 : ℤ) : ℚ) / (s.screen_width_ : ℚ))
        (set_rect s x1 y1 x2 y2).config_.margin_left ∧
      (8 * s.config_fullscreen_.margin_left * (x2 - x1) + (s.screen_width_ : ℤ) < 2 ^ 24 →
        NearestInteger
          ((s.config_fullscreen_.margin_left : ℚ) *
            (((x2 - x1 : ℤ) : ℚ) / (s.screen_width_ : ℚ)))
          (set_rect s x1 y1 x2 y2).config_.margin_left)) := by
  constructor
  · intro field hf h0 h1
    simp only [heightScaledFields, List.mem_cons, List.mem_singleton, List.not_mem_nil,
      or_false] at hf
    rcases hf with rfl | rfl | rfl | rfl | rfl | rfl | rfl | rfl | rfl <;>
      exact scale_field_rounded _ (y2 - y1) s.screen_height_ hh0 hh hsh0 hsh h0 h1
  · intro h0 h1
    exact scale_field_rounded _ (x2 - x1) s.screen_width_ hw0 hw hsw0 hsw h0 h1

theorem set_rect_scaled_fields_witness :
    (∀ field ∈ heightScaledFields,
      0 ≤ field sampleRenderer.config_fullscreen_ →
      field sampleRenderer.config_fullscreen_ < 2 ^ 24 →
      RoundedScale (field sampleRenderer.config_fullscreen_)
        (((720 - 0 : ℤ) : ℚ) / (sampleRenderer.screen_height_ : ℚ))
        (field (set_rect sampleRenderer 0 0 1280 720).config_) ∧
      (8 * field sampleRenderer.config_fullscreen_ * (720 - 0) +
          (sampleRenderer.screen_height_ : ℤ) < 2 ^ 24 →
        NearestInteger
          ((field sampleRenderer.config_fullscreen_ : ℚ) *
            (((720 - 0 : ℤ) : ℚ) / (sampleRenderer.screen_height_ : ℚ)))
          (field (set_rect sampleRenderer 0 0 1280 720).config_))) ∧
    (0 ≤ sampleRenderer.config_fullscreen_.margin_left →
      sampleRenderer.config_fullscreen_.margin_left < 2 ^ 24 →
      RoundedScale sampleRenderer.config_fullscreen_.margin_left
        (((1280 - 0 : ℤ) : ℚ) / (sampleRenderer.screen_width_ : ℚ))
        (set_rect sampleRenderer 0 0 1280 720).config_.margin_left ∧
      (8 * sampleRenderer.config_fullscreen_.margin_left * (1280 - 0) +
          (sampleRenderer.screen_width_ : ℤ) < 2 ^ 24 →
        NearestInteger
          ((sampleRenderer.config_fullscreen_.margin_left : ℚ) *
            (((1280 - 0 : ℤ) : ℚ) / (sampleRenderer.screen_width_ : ℚ)))
          (set_rect sampleRenderer 0 0 1280 720).config_.margin_left)) :=
  set_rect_scaled_fields sampleRenderer 0 0 1280 720 (by decide) (by decide) (by decide)
    (by decide) (by decide) (by decide) (by decide) (by decide)

/-- Outside the range of `scale_field_nearest` the `float` rounding can decide the result:
the baseline value 53827 at the ratio 977/1080 gives 48694, while the exact product is
48693.499..., whose nearest integer is 48693. -/
theorem scale_field_float_rounding_sample :
    scale_field 53827 (f32 (f32 ((977 : ℕ) : ℚ) / f32 ((1080 : ℕ) : ℚ))) = 48694 ∧
    ¬ NearestInteger ((53827 : ℚ) * ((977 : ℚ) / 1080)) 48694 := by
  constructor
  · have e0 : f32 ((977 : ℕ) : ℚ) / f32 ((1080 : ℕ) : ℚ) = 977 / 1080 := by
      rw [f32_natCast 977 (by norm_num), f32_natCast 1080 (by norm_num)]
      norm_num
    have e1 : f32 ((977 : ℚ) / 1080) = 15177167 / 16777216 := by
      rw [f32_eq_of_near _ (-1) 15177167 (by norm_num) (by norm_num [abs_of_pos])
        (by norm_num [abs_of_pos]) (by norm_num) (by norm_num)]
      norm_num
    have e2 : f32 ((53827 : ℤ) : ℚ) = 53827 := by
      have := f32_intCast 53827 (by norm_num)
      simpa using this
    have e3 : f32 ((53827 : ℚ) * (15177167 / 16777216)) = 97387 / 2 := by
      rw [f32_eq_of_near _ 15 12465536 (by norm_num) (by norm_num [abs_of_pos])
        (by norm_num [abs_of_pos]) (by norm_num) (by norm_num)]
      norm_num
    have e4 : f32 ((97387 : ℚ) / 2 + 1 / 2) = 48694 := by
      have := f32_intCast 48694 (by norm_num)
      norm_num at this ⊢
      exact this
    have e5 : float_to_int (48694 : ℚ) = 48694 := by
      have := float_to_int_intCast 48694
      simpa using this
    rw [scale_field, e0, e1, e2, e3, e4, e5]
  · unfold NearestInteger
    rw [not_le, abs_of_pos (by norm_num)]
    norm_num

/-- C5 as stated fails: on the sample renderer, `set_rect(0, 0, 960, 1080)` halves the
width and keeps the height; `box_h_padding` and `title_box_h_padding`, 6 in the baseline,
stay 6, while the baseline times the width ratio 960/1920, rounded, is 3. -/
theorem set_rect_h_padding_counterexample :
    sampleRenderer.config_fullscreen_.box_h_padding = 6 ∧
    sampleRenderer.config_fullscreen_.title_box_h_padding = 6 ∧
    (set_rect sampleRenderer 0 0 960 1080).config_.box_h_padding = 6 ∧
    (set_rect sampleRenderer 0 0 960 1080).config_.title_box_h_padding = 6 ∧
    round ((6 : ℚ) * (((960 - 0 : ℤ) : ℚ) / ((1920 : ℕ) : ℚ))) = 3 := by
  have hfull : sampleRenderer.config_fullscreen_ = sampleRenderer.config_ := rfl
  have hsh : sampleRenderer.screen_height_ = 1080 := rfl
  have hu : to_uint32 ((1080 : ℤ) - 0) = 1080 := by decide
  have hmod : f32 (f32 ((to_uint32 ((1080 : ℤ) - 0) : ℕ) : ℚ) /
      f32 ((sampleRenderer.screen_height_ : ℕ) : ℚ)) = 1 := by
    rw [hu, hsh]
    exact f32_ratio_self 1080 (by norm_num) (by norm_num)
  have h6 : scale_field 6 1 = 6 := by
    rw [scale_field_one 6 (by norm_num)]
    rfl
  have e1 : (set_rect sampleRenderer 0 0 960 1080).config_.box_h_padding = 6 := by
    show scale_field sampleRenderer.config_fullscreen_.box_h_padding _ = 6
    rw [hmod, hfull, sampleRenderer_config]
    exact h6
  have e2 : (set_rect sampleRenderer 0 0 960 1080).config_.title_box_h_padding = 6 := by
    show scale_field sampleRenderer.config_fullscreen_.title_box_h_padding _ = 6
    rw [hmod, hfull, sampleRenderer_config]
    exact h6
  refine ⟨?_, ?_, e1, e2, ?_⟩
  · rw [hfull, sampleRenderer_config]
  · rw [hfull, sampleRenderer_config]
  · have : (6 : ℚ) * (((960 - 0 : ℤ) : ℚ) / ((1920 : ℕ) : ℚ)) = ((3 : ℤ) : ℚ) := by norm_num
    rw [this, round_intCast]

/-! ### Nested and unterminated tags -/

/-- One or more `<i>` tokens in a row, outside a tag, give no character and leave the
tracker italic, just after a tag. -/
theorem cps_opens (k : Nat) (t : TagTracker) (ht : t.state_ = 0 ∨ t.state_ = 62) :
    get_internal_chars_cps (List.replicate (k + 1) [60, 105, 62]).flatten t =
      ([], { italic_ := true, state_ := 62, closing_ := false }) := by
  induction k generalizing t with
  | zero => simpa using cps_open t ht
  | succ k ih =>
    rw [List.replicate_succ, List.flatten_cons, cps_append, cps_open t ht]
    simp only [List.nil_append]
    rw [ih _ (Or.inr rfl)]

/-- C11: for `k ≥ 1` and a run `w` without `<`, decoding `k` copies of `<i>`, then `w`,
then one `</i>` with a fresh TagTracker yields exactly the characters of `w` (each
italic), and italic() is false after the close; `<i><i>a</i>` yields `a`, and italic()
is false afterwards. -/
theorem nested_open_single_close (k : Nat) (hk : 1 ≤ k) (w : List Nat) (hw : 60 ∉ w)
    (hc : ∀ c ∈ w, c < 2 ^ 31) :
    (get_internal_chars_cps ((List.replicate k [60, 105, 62]).flatten ++ w ++ [60, 47, 105, 62])
        TagTracker.fresh).1.map (fun c => (c.codepoint, c.italic)) = w.map (fun c => (c, true)) ∧
    (get_internal_chars_cps ((List.replicate k [60, 105, 62]).flatten ++ w ++ [60, 47, 105, 62])
        TagTracker.fresh).1.map InternalChar.codepoint = w ∧
    (get_internal_chars_cps ((List.replicate k [60, 105, 62]).flatten ++ w ++ [60, 47, 105, 62])
        TagTracker.fresh).2.italic = false ∧
    (get_internal_chars_cps [60, 105, 62, 60, 105, 62, 97, 60, 47, 105, 62]
        TagTracker.fresh).1.map InternalChar.codepoint = [97] ∧
    (get_internal_chars_cps [60, 105, 62, 60, 105, 62, 97, 60, 47, 105, 62]
        TagTracker.fresh).2.italic = false := by
  obtain ⟨j, rfl⟩ : ∃ j, k = j + 1 := ⟨k - 1, by omega⟩
  have h1 := cps_opens j TagTracker.fresh (Or.inl rfl)
  have h2 := cps_plain w hw { italic_ := true, state_ := 62, closing_ := false } (Or.inr rfl)
  have hall : get_internal_chars_cps
      ((List.replicate (j + 1) [60, 105, 62]).flatten ++ w ++ [60, 47, 105, 62])
      TagTracker.fresh =
      (w.map (fun c => InternalChar.make c true),
        { italic_ := false, state_ := 62, closing_ := true }) := by
    rw [List.append_assoc, cps_append, h1]
    simp only [List.nil_append]
    rw [cps_append, h2]
    simp only
    rw [cps_close]
    · simp
    · split
      · exact Or.inr rfl
      · exact Or.inl rfl
  rw [hall]
  refine ⟨map_styled_make w true hc, map_codepoint_make w true hc, rfl, by decide, by decide⟩

theorem nested_open_single_close_witness :
    (get_internal_chars_cps ((List.replicate 3 [60, 105, 62]).flatten ++ [120, 121] ++
        [60, 47, 105, 62]) TagTracker.fresh).1.map (fun c => (c.codepoint, c.italic))
      = [120, 121].map (fun c => (c, true)) ∧
    (get_internal_chars_cps ((List.replicate 3 [60, 105, 62]).flatten ++ [120, 121] ++
        [60, 47, 105, 62]) TagTracker.fresh).2.italic = false :=
  ⟨(nested_open_single_close 3 (by decide) [120, 121] (by decide) (by decide)).1,
    (nested_open_single_close 3 (by decide) [120, 121] (by decide) (by decide)).2.2.1⟩

/-- Inside a tag a codepoint other than `>` leaves the tracker inside the tag. -/
theorem TagTracker.put_in_tag (t : TagTracker) (c : Nat) (hc : c ≠ 62)
    (h0 : t.state_ ≠ 0) (h62 : t.state_ ≠ 62) :
    (t.put c).state_ ≠ 0 ∧ (t.put c).state_ ≠ 62 ∧ (t.put c).italic_ = t.italic_ := by
  obtain ⟨it, st, cl⟩ := t
  simp only at h0 h62
  by_cases h1 : c = 60
  · subst h1; simp [TagTracker.put, h62]
  · by_cases h2 : c = 47
    · subst h2
      by_cases h3 : st = 60
      · subst h3; simp [TagTracker.put]
      · simp [TagTracker.put, h62, h3, h0]
    · by_cases h3 : c = 105
      · subst h3; simp [TagTracker.put, h62, h0]
      · simp [TagTracker.put, h62, h1, h2, h3, hc, h0]

/-- Inside a tag, a run without `>` is discarded whole and the tracker stays inside the
tag, with the italic flag it had. -/
theorem cps_in_tag (v : List Nat) (hv : 62 ∉ v) (t : TagTracker)
    (h0 : t.state_ ≠ 0) (h62 : t.state_ ≠ 62) :
    (get_internal_chars_cps v t).1 = [] ∧ (get_internal_chars_cps v t).2.state_ ≠ 0 ∧
      (get_internal_chars_cps v t).2.state_ ≠ 62 ∧
      (get_internal_chars_cps v t).2.italic_ = t.italic_ := by
  induction v generalizing t with
  | nil => exact ⟨rfl, h0, h62, rfl⟩
  | cons c rest ih =>
    have hc : c ≠ 62 := fun h => hv (by simp [h])
    obtain ⟨a0, a62, ai⟩ := TagTracker.put_in_tag t c hc h0 h62
    obtain ⟨b1, b2, b3, b4⟩ := ih (fun h => hv (by simp [h])) (t.put c) a0 a62
    simp only [get_internal_chars_cps]
    have hin : (t.put c).in_tag = true := by simpa [TagTracker.in_tag] using a0
    simp only [hin, if_true]
    exact ⟨b1, b2, b3, b4.trans ai⟩

/-- After `<` the tracker is inside a tag, whatever it was before. -/
theorem TagTracker.put_lt (t : TagTracker) : (t.put 60).state_ = 60 := by
  simp [TagTracker.put]

/-- The character `>` closes a tag: it is discarded and the tracker is just after a tag. -/
theorem TagTracker.put_gt_in_tag (t : TagTracker) (h0 : t.state_ ≠ 0) (h62 : t.state_ ≠ 62) :
    (t.put 62).state_ = 62 := by
  obtain ⟨it, st, cl⟩ := t
  simp only at h0 h62
  simp [TagTracker.put, h62, h0]

/-- C12: whatever the tracker and whatever came before: the characters from a `<` up to
and including the next `>` are all discarded, the decoding going on after the `>` from
the tracker the tag left; without a `>` after the `<`, everything from that `<` to the
end is discarded, so decoding `u ++ "<" ++ v` with no `>` in `v` yields the visible
characters of `u`. -/
theorem tag_discarded (t : TagTracker) (u : List Nat) :
    (∀ body rest : List Nat, 62 ∉ body →
      (get_internal_chars_cps (u ++ [60] ++ body ++ [62] ++ rest) t).1 =
        (get_internal_chars_cps u t).1 ++
          (get_internal_chars_cps rest (t.putAll (u ++ [60] ++ body ++ [62]))).1 ∧
      (t.putAll (u ++ [60] ++ body ++ [62])).state_ = 62) ∧
    (∀ v : List Nat, 62 ∉ v →
      (get_internal_chars_cps (u ++ [60] ++ v) t).1 = (get_internal_chars_cps u t).1) ∧
    (get_internal_chars_cps [97, 60, 98, 47, 62, 99, 60, 100] TagTracker.fresh).1.map
      InternalChar.codepoint = [97, 99] := by
  have hopen : ∀ t1 : TagTracker, get_internal_chars_cps [60] t1 = ([], t1.put 60) := by
    intro t1
    have : (t1.put 60).in_tag = true := by simp [TagTracker.in_tag, TagTracker.put_lt]
    simp [get_internal_chars_cps, this]
  refine ⟨?_, ?_, by decide⟩
  · intro body rest hb
    obtain ⟨b1, b2, b3, -⟩ := cps_in_tag body hb ((get_internal_chars_cps u t).2.put 60)
      (by rw [TagTracker.put_lt]; decide) (by rw [TagTracker.put_lt]; decide)
    have hclose : ∀ t1 : TagTracker, t1.state_ ≠ 0 → t1.state_ ≠ 62 →
        get_internal_chars_cps [62] t1 = ([], t1.put 62) := by
      intro t1 h0 h62
      have : (t1.put 62).in_tag = true := by
        simp [TagTracker.in_tag, TagTracker.put_gt_in_tag t1 h0 h62]
      simp [get_internal_chars_cps, this]
    have htag : get_internal_chars_cps (u ++ [60] ++ body ++ [62]) t =
        ((get_internal_chars_cps u t).1,
          (get_internal_chars_cps body ((get_internal_chars_cps u t).2.put 60)).2.put 62) := by
      rw [cps_append, cps_append, cps_append, hopen, hclose _ b2 b3]
      simp [b1]
    constructor
    · rw [cps_append, htag, ← cps_tracker, htag]
    · rw [← cps_tracker, htag]
      exact TagTracker.put_gt_in_tag _ b2 b3
  · intro v hv
    obtain ⟨b1, -, -, -⟩ := cps_in_tag v hv ((get_internal_chars_cps u t).2.put 60)
      (by rw [TagTracker.put_lt]; decide) (by rw [TagTracker.put_lt]; decide)
    rw [cps_append, cps_append, hopen]
    simp [b1]

/-! ### Widths -/

theorem GlyphMap.advance_sum_append (m : GlyphMap) (a b : List InternalChar) :
    m.advance_sum (a ++ b) = m.advance_sum a + m.advance_sum b := by
  simp [GlyphMap.advance_sum]

/-- C13: `get_text_width` of a sequence whose characters all have entries in the glyph map
of the category is the sum of their cached advances, and the width of a concatenation is
the sum of the widths of its parts. -/
theorem get_text_width_additive (s : Renderer) (title : Bool) (s1 s2 : List InternalChar)
    (h1 : ∀ c ∈ s1, (s.glyph_map title).find c ≠ none)
    (h2 : ∀ c ∈ s2, (s.glyph_map title).find c ≠ none) :
    get_text_width s s1 title = .ok ((s.glyph_map title).advance_sum s1) ∧
    get_text_width s s2 title = .ok ((s.glyph_map title).advance_sum s2) ∧
    get_text_width s (s1 ++ s2) title =
      .ok ((s.glyph_map title).advance_sum s1 + (s.glyph_map title).advance_sum s2) := by
  refine ⟨get_text_width_eq s title s1 h1, get_text_width_eq s title s2 h2, ?_⟩
  rw [get_text_width_eq s title (s1 ++ s2), GlyphMap.advance_sum_append]
  intro c hc
  rcases List.mem_append.mp hc with hc | hc
  · exact h1 c hc
  · exact h2 c hc

theorem get_text_width_additive_witness :
    (∀ c ∈ [InternalChar.make 65 false, InternalChar.make 66 true],
      (({ sampleRenderer with
          glyphs_ := [(InternalChar.make 65 false, { advance := 10 }),
            (InternalChar.make 66 true, { advance := 7 })] } : Renderer).glyph_map false).find c
        ≠ none) ∧
    get_text_width
      { sampleRenderer with
        glyphs_ := [(InternalChar.make 65 false, { advance := 10 }),
          (InternalChar.make 66 true, { advance := 7 })] }
      ([InternalChar.make 65 false, InternalChar.make 66 true] ++ [InternalChar.make 66 true])
      false = .ok (17 + 7) :=
  ⟨by decide,
    (get_text_width_additive
      { sampleRenderer with
        glyphs_ := [(InternalChar.make 65 false, { advance := 10 }),
          (InternalChar.make 66 true, { advance := 7 })] }
      false [InternalChar.make 65 false, InternalChar.make 66 true] [InternalChar.make 66 true]
      (by decide) (by decide)).2.2⟩

/-! ### The operations return -/

/-- The function `prepare_time` returns for every string. -/
theorem prepare_time_ok (b : Backend) (s : Renderer) (line : List Nat) :
    ∃ s1, prepare_time b s line = .ok s1 := by
  by_cases h : line = []
  · subst h
    exact ⟨_, rfl⟩
  · obtain ⟨sg, hg, hframe, hw⟩ := prepare_glyphs_frame b
      (get_internal_chars b.decodeUtf8 line TagTracker.fresh).1 true
      { s with internal_time_ := (get_internal_chars b.decodeUtf8 line TagTracker.fresh).1 }
    have e7 : sg.internal_time_ = (get_internal_chars b.decodeUtf8 line TagTracker.fresh).1 := by
      rw [hframe]
    refine ⟨{ sg with
        time_width_ := (sg.glyph_map true).advance_sum
          (get_internal_chars b.decodeUtf8 line TagTracker.fresh).1
        time_position_ :=
          (sg.config_.buffer_width - (sg.glyph_map true).advance_sum
              (get_internal_chars b.decodeUtf8 line TagTracker.fresh).1 - sg.config_.margin_left,
            sg.config_.margin_bottom)
        time_prepared_ := true }, ?_⟩
    simp only [prepare_time, h, if_false, bind, Except.bind, hg, e7, hw]
    rfl

/-- The function `prepare_title` returns for every string. -/
theorem prepare_title_ok (b : Backend) (s : Renderer) (line : List Nat) :
    ∃ s1, prepare_title b s line = .ok s1 := by
  by_cases h : line = []
  · subst h
    exact ⟨_, prepare_title_nil b s⟩
  · obtain ⟨s1, h1, -⟩ := prepare_title_spec b s line h
    exact ⟨s1, h1⟩

/-- C17: whatever FreeType answers, `prepare_glyphs(text, title)` returns and leaves every
character of `text` with an entry in the map of the category, so the `at` lookups of
`get_text_width(text, title)` find their entries and the call returns the sum of the
advances; `prepare`, `prepare_title` and `prepare_time` therefore return for every input. -/
theorem width_lookup_never_misses (b : Backend) (s : Renderer) :
    (∀ (text : List InternalChar) (title : Bool),
      ∃ s1, prepare_glyphs b s text title = .ok s1 ∧
        (∀ c ∈ text, ∃ g, (s1.glyph_map title).find c = some g) ∧
        get_text_width s1 text title = .ok ((s1.glyph_map title).advance_sum text)) ∧
    (∀ text_lines : List (List Nat), ∃ s1, prepare b s text_lines = .ok s1) ∧
    (∀ line : List Nat, ∃ s1, prepare_title b s line = .ok s1) ∧
    (∀ line : List Nat, ∃ s1, prepare_time b s line = .ok s1) := by
  refine ⟨?_, ?_, prepare_title_ok b s, prepare_time_ok b s⟩
  · intro text title
    obtain ⟨s1, h1, -, -, -, h5⟩ := prepare_glyphs_spec b text title s
    refine ⟨s1, h1, ?_, get_text_width_eq s1 title text h5⟩
    intro c hc
    exact Option.ne_none_iff_exists'.mp (h5 c hc)
  · intro text_lines
    obtain ⟨s1, h1, -⟩ := prepare_spec b s text_lines
    exact ⟨s1, h1⟩

/-- C15: `prepare` returns for every input, and the call changes neither the index
`prepared_lines_active_` nor the slot `prepared_lines_[prepared_lines_active_]` that `draw`
reads: its lines, widths, positions and `prepared_` flag are as before. -/
theorem prepare_keeps_active_slot (b : Backend) (s : Renderer) (text_lines : List (List Nat)) :
    ∃ s1, prepare b s text_lines = .ok s1 ∧
      s1.prepared_lines_active_ = s.prepared_lines_active_ ∧
      s1.active_lines = s.active_lines ∧
      s1.active_lines.internal_lines_ = s.active_lines.internal_lines_ ∧
      s1.active_lines.line_widths_ = s.active_lines.line_widths_ ∧
      s1.active_lines.line_positions_ = s.active_lines.line_positions_ ∧
      s1.active_lines.prepared_ = s.active_lines.prepared_ := by
  obtain ⟨s1, h1, -, -, -, h5, h6, -⟩ := prepare_spec b s text_lines
  exact ⟨s1, h1, h5, h6, by rw [h6], by rw [h6], by rw [h6], by rw [h6]⟩

/-! ### One tracker for all lines -/

theorem length_thread_lines (dec : Utf8Decoder) (texts : List (List Nat)) (t : TagTracker) :
    (thread_lines dec texts t).length = texts.length := by
  induction texts generalizing t with
  | nil => rfl
  | cons text texts ih => simp [thread_lines, ih]

/-- The loop of `prepare` stores, from index `i` on, the character vectors of the lines
decoded one after the other with the same tracker. -/
theorem prepare_loop_lines (b : Backend) (n tlh tlp : Int) (texts : List (List Nat)) :
    ∀ (i : Nat) (s : Renderer) (t : TagTracker),
    ∃ s1, prepare_loop b n tlh tlp texts i s t = .ok s1 ∧
      s1.staging_lines.internal_lines_.length = s.staging_lines.internal_lines_.length ∧
      (∀ j, j < i →
        s1.staging_lines.internal_lines_[j]? = s.staging_lines.internal_lines_[j]?) ∧
      (∀ k, k < texts.length → i + k < s.staging_lines.internal_lines_.length →
        s1.staging_lines.internal_lines_[i + k]? = (thread_lines b.decodeUtf8 texts t)[k]?) := by
  induction texts with
  | nil =>
    intro i s t
    refine ⟨s, rfl, rfl, fun _ _ => rfl, ?_⟩
    intro k hk
    simp at hk
  | cons text texts ih =>
    intro i s t
    obtain ⟨sa, w, -, -, -, -, -, hstag, hstep⟩ := prepare_loop_cons b n tlh tlp text texts i s t
    obtain ⟨s1, h1, h2, h3, h4⟩ := ih (i + 1) sa (get_internal_chars b.decodeUtf8 text t).2
    have hlen : sa.staging_lines.internal_lines_.length
        = s.staging_lines.internal_lines_.length := by
      rw [hstag]; simp
    refine ⟨s1, hstep.trans h1, h2.trans hlen, ?_, ?_⟩
    · intro j hj
      rw [h3 j (by omega), hstag]
      have hne : i ≠ j := by omega
      simp [List.getElem?_set_ne hne]
    · intro k hk hik
      cases k with
      | zero =>
        rw [Nat.add_zero, h3 i (by omega), hstag]
        have hi : i < s.staging_lines.internal_lines_.length := by omega
        simp [thread_lines, List.getElem?_set_self, hi]
      | succ k =>
        have := h4 k (by simp at hk; omega) (by rw [hlen]; omega)
        rw [show i + (k + 1) = i + 1 + k by omega, this]
        simp [thread_lines]

/-- The character vectors `prepare` stores are those of the lines decoded one after the
other, the tracker starting fresh at the first line. -/
theorem prepare_internal_lines (b : Backend) (s : Renderer) (text_lines : List (List Nat)) :
    ∃ s1, prepare b s text_lines = .ok s1 ∧
      s1.staging_lines.internal_lines_ =
        thread_lines b.decodeUtf8 text_lines TagTracker.fresh := by
  obtain ⟨s1, h1, h2, -, h4⟩ :=
    prepare_loop_lines b (text_lines.length : Int)
      (if !s.title_prepared_ then 0 else s.config_.title_line_height)
      (if !s.title_prepared_ then 0 else s.config_.title_line_padding) text_lines 0
      (s.set_staging_lines
        { s.staging_lines with
          internal_lines_ := resize s.staging_lines.internal_lines_ text_lines.length []
          line_widths_ := resize s.staging_lines.line_widths_ text_lines.length 0
          line_positions_ := resize s.staging_lines.line_positions_ text_lines.length (0, 0) })
      TagTracker.fresh
  simp only [Renderer.staging_lines_set, length_resize] at h2 h4
  refine ⟨s1.set_staging_lines { s1.staging_lines with prepared_ := true }, ?_, ?_⟩
  · simp only [prepare, bind, Except.bind, Renderer.title_prepared_set, Renderer.config_set, h1]
    rfl
  · rw [Renderer.staging_lines_set]
    apply List.ext_getElem?
    intro k
    by_cases hk : k < text_lines.length
    · have := h4 k hk (by omega)
      rw [Nat.zero_add] at this
      exact this
    · have hl : ({ s1.staging_lines with prepared_ := true } :
          PreparedSubtitleLines).internal_lines_.length = text_lines.length := h2
      rw [List.getElem?_eq_none (by rw [hl]; omega),
        List.getElem?_eq_none (by rw [length_thread_lines]; omega)]

/-- The tracker a call of `get_internal_chars` leaves is the tracker after the decoded
codepoints. -/
theorem get_internal_chars_tracker (dec : Utf8Decoder) (text : List Nat) (t : TagTracker) :
    (get_internal_chars dec text t).2 = t.putAll (decoded_codepoints dec text) := by
  rw [get_internal_chars_eq_cps, cps_tracker]

/-- Line `i` is decoded from the tracker that the codepoints of the lines before it leave. -/
theorem thread_lines_getElem (dec : Utf8Decoder) (texts : List (List Nat)) :
    ∀ (t : TagTracker) (i : Nat) (text : List Nat), texts[i]? = some text →
      (thread_lines dec texts t)[i]? = some
        (get_internal_chars dec text
          (t.putAll ((texts.take i).map (decoded_codepoints dec)).flatten)).1 := by
  induction texts with
  | nil =>
    intro t i text h
    simp at h
  | cons first rest ih =>
    intro t i text h
    cases i with
    | zero =>
      simp only [List.getElem?_cons_zero, Option.some.injEq] at h
      subst h
      simp [thread_lines, TagTracker.putAll]
    | succ i =>
      simp only [List.getElem?_cons_succ] at h
      simp only [thread_lines, List.getElem?_cons_succ, List.take_succ_cons, List.map_cons,
        List.flatten_cons, TagTracker.putAll_append]
      rw [ih _ i text h, get_internal_chars_tracker]

/-- The stored vectors, concatenated, are the decoding of the concatenated codepoints of
the lines with one tracker. -/
theorem thread_lines_flatten (dec : Utf8Decoder) (texts : List (List Nat)) (t : TagTracker) :
    (thread_lines dec texts t).flatten =
      (get_internal_chars_cps (texts.map (decoded_codepoints dec)).flatten t).1 := by
  induction texts generalizing t with
  | nil => rfl
  | cons first rest ih =>
    simp only [thread_lines, List.flatten_cons, List.map_cons, cps_append, ih]
    rw [get_internal_chars_eq_cps]

/-- C16: `prepare` passes one TagTracker through its lines in order.  The vector stored
for line `i` is the decoding of that line from the tracker the codepoints of all the lines
before it leave, starting fresh at the first line, and the concatenation of the stored
vectors is the decoding of the concatenated codepoints of the lines with a single fresh
tracker.  An `<i>` left open on one line makes the next line italic (`<i>a` then `b`), and
an unterminated `<` swallows the next line up to its first `>` (`a<` then `b>c`). -/
theorem prepare_threads_tracker (b : Backend) (s : Renderer) (text_lines : List (List Nat)) :
    (∃ s1, prepare b s text_lines = .ok s1 ∧
      s1.staging_lines.internal_lines_.length = text_lines.length ∧
      (∀ (i : Nat) (text : List Nat), text_lines[i]? = some text →
        s1.staging_lines.internal_lines_[i]? = some
          (get_internal_chars b.decodeUtf8 text
            (TagTracker.fresh.putAll
              ((text_lines.take i).map (decoded_codepoints b.decodeUtf8)).flatten)).1) ∧
      s1.staging_lines.internal_lines_.flatten =
        (get_internal_chars_cps (text_lines.map (decoded_codepoints b.decodeUtf8)).flatten
          TagTracker.fresh).1) ∧
    (∃ s1, prepare sampleBackend s [[60, 105, 62, 97], [98]] = .ok s1 ∧
      s1.staging_lines.internal_lines_ =
        [[InternalChar.make 97 true], [InternalChar.make 98 true]]) ∧
    (∃ s1, prepare sampleBackend s [[97, 60], [98, 62, 99]] = .ok s1 ∧
      s1.staging_lines.internal_lines_ =
        [[InternalChar.make 97 false], [InternalChar.make 99 false]]) := by
  refine ⟨?_, ?_, ?_⟩
  · obtain ⟨s1, h1, h2⟩ := prepare_internal_lines b s text_lines
    refine ⟨s1, h1, ?_, ?_, ?_⟩
    · rw [h2, length_thread_lines]
    · intro i text hi
      rw [h2]
      exact thread_lines_getElem b.decodeUtf8 text_lines TagTracker.fresh i text hi
    · rw [h2]
      exact thread_lines_flatten b.decodeUtf8 text_lines TagTracker.fresh
  · obtain ⟨s1, h1, h2⟩ := prepare_internal_lines sampleBackend s [[60, 105, 62, 97], [98]]
    refine ⟨s1, h1, ?_⟩
    rw [h2]
    decide
  · obtain ⟨s1, h1, h2⟩ := prepare_internal_lines sampleBackend s [[97, 60], [98, 62, 99]]
    refine ⟨s1, h1, ?_⟩
    rw [h2]
    decide

/-! ### Bad bytes -/

/-- With as many iterations as bytes are left the loop of `get_internal_chars` reaches its
exit condition, and its result is that of `get_internal_chars_loop`. -/
theorem get_internal_chars_steps_eq (dec : Utf8Decoder) (str : List Nat) (fuel : Nat) :
    ∀ (i : Nat) (t : TagTracker) (acc : List InternalChar), str.length ≤ i + fuel →
    get_internal_chars_steps dec str fuel i t acc =
      some (get_internal_chars_loop dec str fuel i t acc) := by
  induction fuel with
  | zero =>
    intro i t acc h
    have : ¬ i < str.length := by omega
    simp [get_internal_chars_steps, get_internal_chars_loop, this]
  | succ fuel ih =>
    intro i t acc h
    by_cases hi : i < str.length
    · simp only [get_internal_chars_steps, get_internal_chars_loop, hi, if_true]
      cases hd : dec.decode str i with
      | none => exact ih (i + 1) t acc (by omega)
      | some r =>
        obtain ⟨cp, j⟩ := r
        have hj := dec.advances str i cp j hd
        exact ih j _ _ (by omega)
    · simp [get_internal_chars_steps, get_internal_chars_loop, hi]

/-- Past the end of the string no codepoint is decoded. -/
theorem decoded_codepoints_loop_end (dec : Utf8Decoder) (str : List Nat) (fuel i : Nat)
    (h : str.length ≤ i) : decoded_codepoints_loop dec str fuel i = [] := by
  have hi : ¬ i < str.length := by omega
  cases fuel <;> simp [decoded_codepoints_loop, hi]

/-- Once the fuel covers the bytes left, more fuel decodes the same codepoints. -/
theorem decoded_codepoints_loop_fuel (dec : Utf8Decoder) (str : List Nat) (fuel : Nat) :
    ∀ (fuel1 i : Nat), str.length ≤ i + fuel → str.length ≤ i + fuel1 →
    decoded_codepoints_loop dec str fuel i = decoded_codepoints_loop dec str fuel1 i := by
  induction fuel with
  | zero =>
    intro fuel1 i h h1
    rw [decoded_codepoints_loop_end dec str 0 i (by omega),
      decoded_codepoints_loop_end dec str fuel1 i (by omega)]
  | succ fuel ih =>
    intro fuel1 i h h1
    by_cases hi : i < str.length
    · cases fuel1 with
      | zero => omega
      | succ f1 =>
        simp only [decoded_codepoints_loop, hi, if_true]
        cases hd : dec.decode str i with
        | none => exact ih f1 (i + 1) (by omega) (by omega)
        | some r =>
          obtain ⟨cp, j⟩ := r
          have hj := dec.advances str i cp j hd
          simp only
          rw [ih f1 j (by omega) (by omega)]
    · rw [decoded_codepoints_loop_end dec str _ i (by omega),
        decoded_codepoints_loop_end dec str fuel1 i (by omega)]

theorem decode_segment_le (dec : Utf8Decoder) (str : List Nat) (fuel i j : Nat)
    (cps : List Nat) (h : decode_segment dec str fuel i j = some cps) : i ≤ j := by
  cases fuel with
  | zero =>
    simp only [decode_segment] at h
    split at h
    · omega
    · simp at h
  | succ f =>
    simp only [decode_segment] at h
    split at h
    · omega
    · split at h
      · simp at h
      · omega

/-- A segment that decodes without a throw contributes its codepoints, and the decoding
goes on from its end. -/
theorem decoded_codepoints_loop_segment (dec : Utf8Decoder) (str : List Nat) (fuel : Nat) :
    ∀ (i j : Nat) (cps : List Nat) (F : Nat),
      decode_segment dec str fuel i j = some cps → j ≤ str.length → str.length ≤ i + F →
      decoded_codepoints_loop dec str F i = cps ++ decoded_codepoints_loop dec str F j := by
  induction fuel with
  | zero =>
    intro i j cps F h hj hF
    simp only [decode_segment] at h
    split at h
    · next hij =>
      simp only [Option.some.injEq] at h
      subst hij
      subst h
      rfl
    · simp at h
  | succ fuel ih =>
    intro i j cps F h hj hF
    simp only [decode_segment] at h
    split at h
    · next hij =>
      simp only [Option.some.injEq] at h
      subst hij
      subst h
      rfl
    · next hij =>
      split at h
      · simp at h
      · next hji =>
        have hlt : i < j := by omega
        have hi : i < str.length := by omega
        cases hd : dec.decode str i with
        | none => simp [hd] at h
        | some r =>
          obtain ⟨cp, k⟩ := r
          simp only [hd, Option.map_eq_some'] at h
          obtain ⟨cps1, hseg, rfl⟩ := h
          have hk := dec.advances str i cp k hd
          have hkj := decode_segment_le dec str fuel k j cps1 hseg
          cases F with
          | zero => omega
          | succ F1 =>
            have e1 : decoded_codepoints_loop dec str (F1 + 1) i
                = cp :: decoded_codepoints_loop dec str F1 k := by
              simp [decoded_codepoints_loop, hi, hd]
            rw [e1, ih k j cps1 F1 hseg hj (by omega),
              decoded_codepoints_loop_fuel dec str F1 (F1 + 1) j (by omega) (by omega)]
            rfl

/-- A byte at which `decodeUtf8` throws contributes no codepoint. -/
theorem decoded_codepoints_loop_skip (dec : Utf8Decoder) (str : List Nat) (F i : Nat)
    (hi : i < str.length) (hd : dec.decode str i = none) (hF : str.length ≤ i + F) :
    decoded_codepoints_loop dec str F i = decoded_codepoints_loop dec str F (i + 1) := by
  cases F with
  | zero => omega
  | succ F1 =>
    have e1 : decoded_codepoints_loop dec str (F1 + 1) i
        = decoded_codepoints_loop dec str F1 (i + 1) := by
      simp [decoded_codepoints_loop, hi, hd]
    rw [e1, decoded_codepoints_loop_fuel dec str F1 (F1 + 1) (i + 1) (by omega) (by omega)]

/-- Two valid strings with a byte between them that cannot start a sequence decode to the
codepoints of the two strings; so do the two strings without the byte. -/
theorem decoded_codepoints_bad_byte (dec : Utf8Decoder) (a b cpa cpb : List Nat) (x : Nat)
    (ha : ValidBytes dec a cpa) (hb : ValidBytes dec b cpb) (hx : InvalidStart dec x) :
    decoded_codepoints dec (a ++ [x] ++ b) = cpa ++ cpb ∧
    decoded_codepoints dec (a ++ b) = cpa ++ cpb := by
  constructor
  · have s1 := ha [] ([x] ++ b)
    have s2 := hb (a ++ [x]) []
    have s3 := hx a b
    have e1 : [] ++ a ++ ([x] ++ b) = a ++ [x] ++ b := by simp
    have e2 : a ++ [x] ++ b ++ [] = a ++ [x] ++ b := by simp
    rw [e1] at s1
    rw [e2] at s2
    simp only [List.length_nil, Nat.zero_add, List.length_append, List.length_singleton] at s1 s2
    have hlen : (a ++ [x] ++ b).length = a.length + 1 + b.length := by
      simp only [List.length_append, List.length_singleton]
    rw [decoded_codepoints,
      decoded_codepoints_loop_segment dec _ _ 0 a.length cpa _ s1 (by rw [hlen]; omega)
        (by omega),
      decoded_codepoints_loop_skip dec _ _ a.length (by rw [hlen]; omega) s3 (by omega),
      decoded_codepoints_loop_segment dec _ _ (a.length + 1) (a.length + 1 + b.length) cpb _ s2
        (by rw [hlen]) (by omega),
      decoded_codepoints_loop_end dec _ _ _ (by rw [hlen])]
    simp
  · have s1 := ha [] b
    have s2 := hb a []
    have e1 : [] ++ a ++ b = a ++ b := by simp
    have e2 : a ++ b ++ [] = a ++ b := by simp
    rw [e1] at s1
    rw [e2] at s2
    simp only [List.length_nil, Nat.zero_add] at s1
    have hlen : (a ++ b).length = a.length + b.length := by simp
    rw [decoded_codepoints,
      decoded_codepoints_loop_segment dec _ _ 0 a.length cpa _ s1 (by rw [hlen]; omega)
        (by omega),
      decoded_codepoints_loop_segment dec _ _ a.length (a.length + b.length) cpb _ s2
        (by rw [hlen]) (by omega),
      decoded_codepoints_loop_end dec _ _ _ (by rw [hlen])]
    simp

/-- Bytes below `0x80` are valid for the example decoder wherever they stand. -/
theorem asciiDecoder_valid (a : List Nat) (h : ∀ c ∈ a, c < 128) :
    ValidBytes asciiDecoder a a := by
  induction a with
  | nil =>
    intro pre post
    simp [decode_segment]
  | cons c rest ih =>
    intro pre post
    have hc : c < 128 := h c (by simp)
    have hget : (pre ++ c :: rest ++ post)[pre.length]? = some c := by
      rw [List.append_assoc, List.getElem?_append_right (le_refl _)]
      simp
    have hd : asciiDecoder.decode (pre ++ c :: rest ++ post) pre.length
        = some (c, pre.length + 1) := by
      simp only [asciiDecoder, hget, hc, if_true]
    have hrec := ih (fun d hd => h d (by simp [hd])) (pre ++ [c]) post
    have e1 : pre ++ [c] ++ rest ++ post = pre ++ c :: rest ++ post := by simp
    rw [e1] at hrec
    simp only [List.length_append, List.length_singleton] at hrec
    have hne : ¬ pre.length = pre.length + (rest.length + 1) := by omega
    have hnl : ¬ pre.length + (rest.length + 1) < pre.length := by omega
    simp only [List.length_cons, decode_segment, hne, hnl, if_false, hd]
    rw [show pre.length + (rest.length + 1) = pre.length + 1 + rest.length by omega, hrec]
    rfl

/-- A byte from `0x80` on makes the example decoder throw wherever it stands. -/
theorem asciiDecoder_invalid (x : Nat) (h : 128 ≤ x) : InvalidStart asciiDecoder x := by
  intro pre post
  have hget : (pre ++ [x] ++ post)[pre.length]? = some x := by
    rw [List.append_assoc, List.getElem?_append_right (le_refl _)]
    simp
  have : ¬ x < 128 := by omega
  simp only [asciiDecoder, hget, this, if_false]

/-- C14: `get_internal_chars` returns for every byte string, within as many iterations as
the string has bytes.  Where `decodeUtf8` throws at position `i`, one iteration moves to
`i + 1` with the tracker and the vector untouched.  So for bytes `a` and `b` that are valid
wherever they stand and a byte `x` that cannot start a sequence, decoding `a ++ [x] ++ b`
gives the same characters, italic flags and tracker as decoding `a ++ b`: those of the
codepoints of `a` followed by the codepoints of `b`. -/
theorem bad_byte_skipped (dec : Utf8Decoder) (a b cpa cpb : List Nat) (x : Nat)
    (ha : ValidBytes dec a cpa) (hb : ValidBytes dec b cpb) (hx : InvalidStart dec x) :
    (∀ (str : List Nat) (t : TagTracker),
      get_internal_chars_steps dec str str.length 0 t [] =
        some (get_internal_chars dec str t)) ∧
    (∀ (str : List Nat) (fuel i : Nat) (t : TagTracker) (acc : List InternalChar),
      i < str.length → dec.decode str i = none →
      get_internal_chars_steps dec str (fuel + 1) i t acc =
        get_internal_chars_steps dec str fuel (i + 1) t acc) ∧
    (∀ t : TagTracker,
      get_internal_chars dec (a ++ [x] ++ b) t = get_internal_chars dec (a ++ b) t) ∧
    (∀ t : TagTracker,
      get_internal_chars dec (a ++ [x] ++ b) t = get_internal_chars_cps (cpa ++ cpb) t) := by
  obtain ⟨e1, e2⟩ := decoded_codepoints_bad_byte dec a b cpa cpb x ha hb hx
  refine ⟨?_, ?_, ?_, ?_⟩
  · intro str t
    exact get_internal_chars_steps_eq dec str str.length 0 t [] (by omega)
  · intro str fuel i t acc hi hd
    simp [get_internal_chars_steps, hi, hd]
  · intro t
    rw [get_internal_chars_eq_cps, get_internal_chars_eq_cps, e1, e2]
  · intro t
    rw [get_internal_chars_eq_cps, e1]

theorem bad_byte_skipped_witness :
    ValidBytes asciiDecoder [60, 105, 62, 72] [60, 105, 62, 72] ∧
    ValidBytes asciiDecoder [105, 33] [105, 33] ∧ InvalidStart asciiDecoder 255 ∧
    (∀ t : TagTracker,
      get_internal_chars asciiDecoder ([60, 105, 62, 72] ++ [255] ++ [105, 33]) t =
        get_internal_chars asciiDecoder ([60, 105, 62, 72] ++ [105, 33]) t) :=
  ⟨asciiDecoder_valid _ (by decide), asciiDecoder_valid _ (by decide),
    asciiDecoder_invalid 255 (by decide),
    (bad_byte_skipped asciiDecoder [60, 105, 62, 72] [105, 33] [60, 105, 62, 72] [105, 33] 255
      (asciiDecoder_valid _ (by decide)) (asciiDecoder_valid _ (by decide))
      (asciiDecoder_invalid 255 (by decide))).2.2.1⟩

end SubtitleRenderer
